/-
Verification development for the DER / X.509 / PEM codec in
buildcatrust (src/buildcatrust/der_x509.py).

Embedding conventions:
* Python `bytes` values are `List Nat`, one element per byte.
* Fallible Python code is embedded as `Except PyErr`.  Python exceptions
  that the source can raise (IndexError from `b[0]` on an empty buffer,
  AssertionError from `assert`, ValueError from `bytearray.append` of a
  value ≥ 256, TypeError from `hash` of a `list`, UnboundLocalError from
  reading a never-assigned local, binascii.Error from base64 decoding)
  become constructors of `PyErr`.  Python slicing (`b[:n]`, `b[n:]`)
  never raises and silently truncates; it is embedded as `List.take` /
  `List.drop`, which have exactly that behaviour.
* Python `while` loops that consume at least one byte of their input per
  iteration are embedded structurally with an explicit fuel argument
  initialised to the input length; one byte consumed per iteration makes
  that fuel always sufficient, so the `.outOfFuel` branch is unreachable
  from the wrappers (the round-trip theorems below never hit it).
* A Python `str` produced by `bytes.decode("utf-8")` is represented by
  its byte sequence (its UTF-8 code units), so `decode` is the identity
  on the content octets.
-/
import Mathlib

set_option linter.unusedVariables false
set_option linter.deprecated false

/-- Python exceptions that the embedded code can raise. -/
inductive PyErr where
  | indexError
  | assertionError
  | valueError
  | typeError
  | unboundLocalError
  | binasciiError
  | outOfFuel
deriving DecidableEq, Repr

/-- Python `int.from_bytes(l, "big")`. -/
def fromBytesBE (l : List Nat) : Nat :=
  l.foldl (fun a d => a * 256 + d) 0

/-- Python `n.to_bytes(k, "big")` (big-endian, `k` bytes). -/
def toBytesBE (n : Nat) : Nat → List Nat
  | 0 => []
  | k + 1 => toBytesBE (n / 256) k ++ [n % 256]

/-- Embedding of `_decode_len` (der_x509.py lines 17-26): DER length
decoding.  First octet `> 0x80` means long form (low 7 bits give the
count of big-endian value octets); otherwise — including `0x80`
itself — the octet is the value (short form). -/
def _decode_len (i : List Nat) : Except PyErr (Nat × List Nat × List Nat) :=
  match i with
  | [] => .error .indexError
  | b :: rest =>
    if b > 0x80 then
      .ok (fromBytesBE (rest.take (b &&& 0x7F)),
           b :: rest.take (b &&& 0x7F),
           rest.drop (b &&& 0x7F))
    else
      .ok (b, [b], rest)

/-- Python `int.bit_length()`, recursing on `n / 2` with a fuel argument
(fuel `n` always suffices, since `n / 2 ≤ n - 1` for `n ≥ 1`). -/
def bitLengthGo (fuel n : Nat) : Nat :=
  match n, fuel with
  | 0, _ => 0
  | _ + 1, 0 => 0
  | n + 1, fuel + 1 => bitLengthGo fuel ((n + 1) / 2) + 1

/-- Python `n.bit_length()`. -/
def bitLength (n : Nat) : Nat := bitLengthGo n n

/-- Embedding of `_encode_len` (lines 29-36).  The
`assert length_bytes < 0x80` in the source becomes an error. -/
def _encode_len (n : Nat) : Except PyErr (List Nat) :=
  if n < 0x80 then .ok [n]
  else
    let length_bytes := (bitLength n + 7) / 8
    if length_bytes < 0x80 then
      .ok ((length_bytes ||| 0x80) :: toBytesBE n length_bytes)
    else .error .assertionError

/-- The digit loop of `_encode_int` (lines 54-57): least-significant
first, each digit `(n & 0x7F) | 0x80`.  Fuel-based structural recursion
(the loop divides `n` by 128 each step, so fuel `n` is enough). -/
def encIntDigits (fuel n : Nat) : List Nat :=
  match n, fuel with
  | 0, _ => []
  | _ + 1, 0 => []
  | n + 1, fuel + 1 => (((n + 1) % 128) ||| 0x80) :: encIntDigits fuel ((n + 1) / 128)

/-- The statement `nbuf[0] = nbuf[0] & 0x7F` of `_encode_int` (line 59):
strip the continuation flag off the least-significant digit. -/
def clearFlagHead : List Nat → List Nat
  | [] => []
  | d :: rest => (d &&& 0x7F) :: rest

/-- Embedding of `_encode_int` (lines 50-61): base-128 varint used for
OID arcs.  Builds LSB-first digits, clears the continuation flag on the
least-significant digit, then reverses. -/
def _encode_int (n : Nat) : List Nat :=
  if n < 0x80 then [n]
  else (clearFlagHead (encIntDigits n n)).reverse

/-- The `while True` loop of `_decode_int` (lines 68-74), structurally
recursing over the byte list (running past the end is Python's
IndexError). -/
def decIntLoop (acc : Nat) : List Nat → Except PyErr (Nat × List Nat)
  | [] => .error .indexError
  | b :: rest =>
    let acc' := (acc <<< 7) ||| (b &&& 0x7F)
    if b &&& 0x80 = 0 then .ok (acc', rest) else decIntLoop acc' rest

/-- Embedding of `_decode_int` (lines 64-74): base-128 varint decode. -/
def _decode_int (b : List Nat) : Except PyErr (Nat × List Nat) :=
  match b with
  | [] => .error .indexError
  | b0 :: rest => if b0 < 0x80 then .ok (b0, rest) else decIntLoop 0 (b0 :: rest)

/-- Embedding of `_dumb_decode` (lines 77-80): the generic TLV walker.
Note that `buf[:der_len]` / `buf[der_len:]` are Python slices, which
silently truncate when `der_len` exceeds `len(buf)`. -/
def _dumb_decode (i : List Nat) : Except PyErr ((Nat × List Nat) × List Nat) :=
  match i with
  | [] => .error .indexError
  | tag :: rest =>
    match _decode_len rest with
    | .error e => .error e
    | .ok (der_len, length_bytes, buf) =>
      .ok ((tag, tag :: length_bytes ++ buf.take der_len), buf.drop der_len)

/-- `isLenEncoding lb n` holds when `lb` is a byte sequence that
`_decode_len` reads as exactly the length `n`, consuming exactly `lb`. -/
def isLenEncoding (lb : List Nat) (n : Nat) : Bool :=
  match lb with
  | [] => false
  | b :: rest =>
    if b > 0x80 then
      decide (rest.length = b &&& 0x7F) && decide (fromBytesBE rest = n)
    else
      rest.isEmpty && decide (b = n)

/- ------------------------------------------------------------------ -/
/- Basic lemmas about the length and integer primitives.              -/
/- ------------------------------------------------------------------ -/

theorem decode_len_split {i : List Nat} {n : Nat} {lb buf : List Nat}
    (h : _decode_len i = .ok (n, lb, buf)) : i = lb ++ buf := by
  match i with
  | [] => simp [_decode_len] at h
  | b :: rest =>
    rw [_decode_len] at h
    by_cases hb : b > 0x80
    · rw [if_pos hb] at h
      obtain ⟨h1, h2, h3⟩ := by simpa using h
      rw [← h2, ← h3]
      simp
    · rw [if_neg hb] at h
      obtain ⟨h1, h2, h3⟩ := by simpa using h
      rw [← h2, ← h3]
      simp

theorem decode_len_rem_le {i : List Nat} {n : Nat} {lb buf : List Nat}
    (h : _decode_len i = .ok (n, lb, buf)) : buf.length + 1 ≤ i.length := by
  match i with
  | [] => simp [_decode_len] at h
  | b :: rest =>
    rw [_decode_len] at h
    by_cases hb : b > 0x80
    · rw [if_pos hb] at h
      obtain ⟨h1, h2, h3⟩ := by simpa using h
      rw [← h3]
      simp only [List.length_cons, List.length_drop]
      omega
    · rw [if_neg hb] at h
      obtain ⟨h1, h2, h3⟩ := by simpa using h
      rw [← h3]
      simp

theorem isLenEncoding_decode {lb : List Nat} {n : Nat}
    (h : isLenEncoding lb n = true) (s : List Nat) :
    _decode_len (lb ++ s) = .ok (n, lb, s) := by
  match lb with
  | [] => simp [isLenEncoding] at h
  | b :: rest =>
    rw [isLenEncoding] at h
    by_cases hb : b > 0x80
    · rw [if_pos hb] at h
      simp only [Bool.and_eq_true, decide_eq_true_eq] at h
      obtain ⟨hlen, hval⟩ := h
      rw [List.cons_append, _decode_len, if_pos hb]
      rw [List.take_left' hlen, List.drop_left' hlen, hval]
    · rw [if_neg hb] at h
      simp only [Bool.and_eq_true, List.isEmpty_iff, decide_eq_true_eq] at h
      obtain ⟨hrest, hval⟩ := h
      subst hrest
      rw [List.cons_append, List.nil_append, _decode_len, if_neg hb, hval]

theorem dumb_decode_split {i : List Nat} {t : Nat} {d r : List Nat}
    (h : _dumb_decode i = .ok ((t, d), r)) : i = d ++ r := by
  match i with
  | [] => simp [_dumb_decode] at h
  | tag :: rest =>
    rw [_dumb_decode] at h
    match hd : _decode_len rest with
    | .error e => rw [hd] at h; simp at h
    | .ok (n, lb, buf) =>
      rw [hd] at h
      obtain ⟨⟨h1, h2⟩, h3⟩ := by simpa using h
      have hsplit := decode_len_split hd
      rw [← h2, ← h3, hsplit]
      simp

theorem dumb_decode_rem_le {i : List Nat} {t : Nat} {d r : List Nat}
    (h : _dumb_decode i = .ok ((t, d), r)) : r.length + 1 ≤ i.length := by
  match i with
  | [] => simp [_dumb_decode] at h
  | tag :: rest =>
    rw [_dumb_decode] at h
    match hd : _decode_len rest with
    | .error e => rw [hd] at h; simp at h
    | .ok (n, lb, buf) =>
      rw [hd] at h
      obtain ⟨⟨h1, h2⟩, h3⟩ := by simpa using h
      have hle := decode_len_rem_le hd
      rw [← h3]
      simp only [List.length_cons, List.length_drop]
      simp only [List.length_cons] at hle ⊢
      omega

/- ------------------------------------------------------------------ -/
/- C6: `_dumb_decode` on a declared length exceeding available bytes. -/
/- ------------------------------------------------------------------ -/

/-- C6 (amended): when the decoded length field of a TLV element
declares more value octets than are available, `_dumb_decode` does NOT
fail; it returns the element with its value span silently truncated to
the available bytes, and an empty remainder.  (The original claim — a
`TruncatedInput` failure — is refuted by `dumb_decode_truncates_cex`.) -/
theorem dumb_decode_truncates (t : Nat) (tail : List Nat) (n : Nat)
    (lb buf : List Nat)
    (hlen : _decode_len tail = .ok (n, lb, buf))
    (hshort : buf.length < n) :
    _dumb_decode (t :: tail) = .ok ((t, t :: lb ++ buf), []) := by
  have h1 : buf.take n = buf := List.take_of_length_le (by omega)
  have h2 : buf.drop n = [] := List.drop_of_length_le (by omega)
  simp [_dumb_decode, hlen, h1, h2]

/-- Witness for `dumb_decode_truncates` at tag `0x30`, declared length 5,
one available byte. -/
theorem dumb_decode_truncates_witness :
    _dumb_decode [0x30, 5, 1] = .ok ((0x30, [0x30, 5, 1]), []) :=
  dumb_decode_truncates 0x30 [5, 1] 5 [5] [1] rfl (by simp)

/-- Counterexample to C6 as stated: the input `[0x04, 0x0A]` declares 10
value octets with 0 available, yet `_dumb_decode` returns an element
(whose value span is empty, shorter than the declared length) instead of
failing with `TruncatedInput`. -/
theorem dumb_decode_truncates_cex :
    _dumb_decode [0x04, 0x0A] = .ok ((0x04, [0x04, 0x0A]), []) := rfl

/- ------------------------------------------------------------------ -/
/- C7: `_decode_len` on first octet 0x80 and > 0x80.                  -/
/- ------------------------------------------------------------------ -/

/-- C7 (amended): a first octet strictly greater than `0x80` selects the
long form, its low 7 bits giving the count of following big-endian value
octets; but a first octet equal to `0x80` (DER's indefinite-length
marker) is NOT rejected with `UnsupportedEncoding` — the code's
comparison is `> 0x80`, so `0x80` falls into the short form and decodes
as the length 128. -/
theorem decode_len_forms (b : Nat) (rest : List Nat) :
    (b = 0x80 → _decode_len (b :: rest) = .ok (0x80, [0x80], rest)) ∧
    (0x80 < b → _decode_len (b :: rest) =
      .ok (fromBytesBE (rest.take (b &&& 0x7F)),
           b :: rest.take (b &&& 0x7F),
           rest.drop (b &&& 0x7F))) := by
  constructor
  · intro hb
    subst hb
    rw [_decode_len, if_neg (by omega)]
  · intro hb
    rw [_decode_len, if_pos hb]

/-- Witness for `decode_len_forms`: the indefinite-length marker `0x80`
is read as a short-form length of 128, and `0x82` reads two following
big-endian octets. -/
theorem decode_len_forms_witness :
    _decode_len [0x80, 1, 2] = .ok (0x80, [0x80], [1, 2]) ∧
    _decode_len [0x82, 1, 2] = .ok (258, [0x82, 1, 2], []) := by
  refine ⟨(decode_len_forms 0x80 [1, 2]).1 rfl, ?_⟩
  have h := (decode_len_forms 0x82 [1, 2]).2 (by omega)
  simpa using h

/-- Counterexample to C7 as stated: on first octet exactly `0x80` the
code does not fail with `UnsupportedEncoding`; it returns the short-form
length 128. -/
theorem decode_len_0x80_cex :
    _decode_len [0x80, 0xAB] = .ok (128, [0x80], [0xAB]) := rfl

/- ------------------------------------------------------------------ -/
/- Arithmetic helpers for the base-128 varint and DER length codecs.  -/
/- ------------------------------------------------------------------ -/

theorem and_127_eq_mod (x : Nat) : x &&& 127 = x % 128 := by
  have h : (127 : Nat) = 2 ^ 7 - 1 := by norm_num
  have h2 : (128 : Nat) = 2 ^ 7 := by norm_num
  rw [h, h2, Nat.and_pow_two_sub_one_eq_mod]

theorem and_128_eq (x : Nat) : x &&& 128 = x / 128 % 2 * 128 := by
  have h : (128 : Nat) = 2 ^ 7 := by norm_num
  rw [h, Nat.and_two_pow, Nat.toNat_testBit]

theorem or_128_of_lt : ∀ x < 128, x ||| 128 = x + 128 := by
  intro x h
  have e : (2 : Nat) ^ 7 = 128 := by norm_num
  have h2 : x < 2 ^ 7 := by rw [e]; exact h
  have h3 := Nat.mul_add_lt_is_or h2 1
  rw [e] at h3
  simp only [mul_one] at h3
  rw [Nat.or_comm, ← h3]
  omega

theorem add_128_and_127 : ∀ x < 128, (x + 128) &&& 127 = x := by
  intro x h
  rw [and_127_eq_mod]
  omega

theorem add_128_and_128 : ∀ x < 128, (x + 128) &&& 128 ≠ 0 := by
  intro x h
  rw [and_128_eq]
  have h1 : (x + 128) / 128 = 1 := by omega
  rw [h1]
  norm_num

theorem lt_128_and_127 : ∀ x < 128, x &&& 127 = x := by
  intro x h
  rw [and_127_eq_mod]
  omega

theorem lt_128_and_128 : ∀ x < 128, x &&& 128 = 0 := by
  intro x h
  rw [and_128_eq]
  have h1 : x / 128 = 0 := by omega
  rw [h1]

theorem byte_flag_ne_zero : ∀ m < 256, 128 ≤ m → m &&& 128 ≠ 0 := by
  intro m h1 h2
  rw [and_128_eq]
  have h3 : m / 128 = 1 := by omega
  rw [h3]
  norm_num

theorem and_127_lt (x : Nat) : x &&& 127 < 128 := by
  rw [and_127_eq_mod]
  omega

theorem shl7_or (a b : Nat) (hb : b < 128) : (a <<< 7) ||| b = a * 128 + b := by
  have e : (2 : Nat) ^ 7 = 128 := by norm_num
  have h : (a <<< 7) = 2 ^ 7 * a := by
    rw [Nat.shiftLeft_eq]
    ring
  have h2 : b < 2 ^ 7 := by rw [e]; exact hb
  have h3 := Nat.mul_add_lt_is_or h2 a
  rw [h, ← h3, e]
  ring

theorem bitLengthGo_succ (f m : Nat) :
    bitLengthGo (f + 1) (m + 1) = bitLengthGo f ((m + 1) / 2) + 1 := rfl

theorem bitLengthGo_zero (f : Nat) : bitLengthGo f 0 = 0 := by
  cases f <;> rfl

theorem bitLengthGo_congr : ∀ n f1 f2, n ≤ f1 → n ≤ f2 →
    bitLengthGo f1 n = bitLengthGo f2 n := by
  intro n
  induction n using Nat.strong_induction_on with
  | _ n ih =>
    intro f1 f2 h1 h2
    match n, f1, f2 with
    | 0, _, _ => rw [bitLengthGo_zero, bitLengthGo_zero]
    | m + 1, g1 + 1, g2 + 1 =>
      rw [bitLengthGo_succ, bitLengthGo_succ]
      have hlt : (m + 1) / 2 < m + 1 := Nat.div_lt_self (by omega) (by omega)
      rw [ih ((m + 1) / 2) hlt g1 g2 (by omega) (by omega)]

theorem bitLength_step (n : Nat) (h : 1 ≤ n) :
    bitLength n = bitLength (n / 2) + 1 := by
  match n, h with
  | m + 1, _ =>
    rw [bitLength, bitLength, bitLengthGo_succ]
    have hlt : (m + 1) / 2 < m + 1 := Nat.div_lt_self (by omega) (by omega)
    rw [bitLengthGo_congr ((m + 1) / 2) m ((m + 1) / 2) (by omega) (by omega)]

theorem lt_two_pow_bitLength : ∀ n, n < 2 ^ bitLength n := by
  intro n
  induction n using Nat.strong_induction_on with
  | _ n ih =>
    match n with
    | 0 => simp [bitLength, bitLengthGo]
    | m + 1 =>
      rw [bitLength_step (m + 1) (by omega)]
      have hlt : (m + 1) / 2 < m + 1 := Nat.div_lt_self (by omega) (by omega)
      have h := ih ((m + 1) / 2) hlt
      rw [pow_succ]
      omega

theorem bitLength_ge : ∀ k n, 2 ^ k ≤ n → k + 1 ≤ bitLength n := by
  intro k
  induction k with
  | zero =>
    intro n hn
    rw [bitLength_step n (by simpa using hn)]
    omega
  | succ k ih =>
    intro n hn
    have h1 : 1 ≤ n := le_trans (Nat.one_le_two_pow) hn
    rw [bitLength_step n h1]
    have h2 : 2 ^ k ≤ n / 2 := by
      rw [pow_succ] at hn
      omega
    have := ih (n / 2) h2
    omega

theorem length_toBytesBE : ∀ k n, (toBytesBE n k).length = k := by
  intro k
  induction k with
  | zero => intro n; rfl
  | succ k ih => intro n; simp [toBytesBE, ih]

theorem foldl_toBytesBE : ∀ k a n, n < 256 ^ k →
    List.foldl (fun x d => x * 256 + d) a (toBytesBE n k) = a * 256 ^ k + n := by
  intro k
  induction k with
  | zero =>
    intro a n hn
    simp [toBytesBE]
    omega
  | succ k ih =>
    intro a n hn
    rw [toBytesBE, List.foldl_append]
    have hdiv : n / 256 < 256 ^ k := by
      rw [pow_succ] at hn
      omega
    rw [ih a (n / 256) hdiv]
    simp only [List.foldl_cons, List.foldl_nil]
    calc (a * 256 ^ k + n / 256) * 256 + n % 256
        = a * (256 ^ k * 256) + (256 * (n / 256) + n % 256) := by ring
      _ = a * 256 ^ (k + 1) + n := by rw [Nat.div_add_mod n 256, pow_succ]

theorem fromBytesBE_toBytesBE {k n : Nat} (h : n < 256 ^ k) :
    fromBytesBE (toBytesBE n k) = n := by
  have := foldl_toBytesBE k 0 n h
  simpa [fromBytesBE] using this

theorem lt_256_pow_byteLen (n : Nat) : n < 256 ^ ((bitLength n + 7) / 8) := by
  have h1 := lt_two_pow_bitLength n
  have h2 : bitLength n ≤ 8 * ((bitLength n + 7) / 8) := by omega
  calc n < 2 ^ bitLength n := h1
    _ ≤ 2 ^ (8 * ((bitLength n + 7) / 8)) := Nat.pow_le_pow_right (by omega) h2
    _ = 256 ^ ((bitLength n + 7) / 8) := by
        rw [pow_mul]
        norm_num

theorem encode_len_isLen {n : Nat} {lb : List Nat}
    (h : _encode_len n = .ok lb) : isLenEncoding lb n = true := by
  rw [_encode_len] at h
  by_cases hn : n < 0x80
  · rw [if_pos hn] at h
    obtain rfl : [n] = lb := by simpa using h
    simp [isLenEncoding, hn]
    omega
  · rw [if_neg hn] at h
    simp only [] at h
    by_cases hlb : (bitLength n + 7) / 8 < 0x80
    · rw [if_pos hlb] at h
      obtain rfl : ((bitLength n + 7) / 8 ||| 0x80) :: toBytesBE n ((bitLength n + 7) / 8) = lb := by
        simpa using h
      have hk1 : 8 ≤ bitLength n := bitLength_ge 7 n (by omega)
      have hk : 1 ≤ (bitLength n + 7) / 8 := by omega
      rw [isLenEncoding]
      have hor := or_128_of_lt ((bitLength n + 7) / 8) hlb
      rw [hor, if_pos (by omega)]
      rw [add_128_and_127 ((bitLength n + 7) / 8) hlb]
      rw [length_toBytesBE, fromBytesBE_toBytesBE (lt_256_pow_byteLen n)]
      simp
    · rw [if_neg hlb] at h
      simp at h

/- ------------------------------------------------------------------ -/
/- Round-trip of the base-128 varint (`_encode_int` / `_decode_int`). -/
/- ------------------------------------------------------------------ -/

theorem decIntLoop_msb : ∀ (ms : List Nat) (acc c : Nat) (s : List Nat),
    (∀ m ∈ ms, 128 ≤ m ∧ m < 256) → c < 128 →
    decIntLoop acc (ms ++ c :: s) =
      .ok (ms.foldl (fun a d => a * 128 + d % 128) acc * 128 + c, s) := by
  intro ms
  induction ms with
  | nil =>
    intro acc c s _ hc
    rw [List.nil_append, decIntLoop]
    rw [if_pos (lt_128_and_128 c hc)]
    rw [lt_128_and_127 c hc, shl7_or acc c hc]
    simp
  | cons m ms ih =>
    intro acc c s hm hc
    obtain ⟨hm1, hm2⟩ := hm m (by simp)
    rw [List.cons_append, decIntLoop]
    rw [if_neg (byte_flag_ne_zero m hm2 hm1)]
    have hstep : (acc <<< 7) ||| (m &&& 127) = acc * 128 + m % 128 := by
      rw [and_127_eq_mod m]
      exact shl7_or acc (m % 128) (by omega)
    rw [hstep, ih (acc * 128 + m % 128) c s (fun x hx => hm x (by simp [hx])) hc]
    simp

theorem encIntDigits_succ (f m : Nat) :
    encIntDigits (f + 1) (m + 1) = (((m + 1) % 128) ||| 0x80) :: encIntDigits f ((m + 1) / 128) := rfl

theorem encIntDigits_zero (f : Nat) : encIntDigits f 0 = [] := by
  cases f <;> rfl

theorem encIntDigits_congr : ∀ n f1 f2, n ≤ f1 → n ≤ f2 →
    encIntDigits f1 n = encIntDigits f2 n := by
  intro n
  induction n using Nat.strong_induction_on with
  | _ n ih =>
    intro f1 f2 h1 h2
    match n, f1, f2 with
    | 0, _, _ => rw [encIntDigits_zero, encIntDigits_zero]
    | m + 1, g1 + 1, g2 + 1 =>
      rw [encIntDigits_succ, encIntDigits_succ]
      have hlt : (m + 1) / 128 < m + 1 := Nat.div_lt_self (by omega) (by omega)
      rw [ih ((m + 1) / 128) hlt g1 g2 (by omega) (by omega)]

theorem encIntDigits_step (n : Nat) (h : 1 ≤ n) :
    encIntDigits n n = (n % 128 ||| 128) :: encIntDigits (n / 128) (n / 128) := by
  match n, h with
  | m + 1, _ =>
    rw [encIntDigits_succ]
    have hlt : (m + 1) / 128 < m + 1 := Nat.div_lt_self (by omega) (by omega)
    rw [encIntDigits_congr ((m + 1) / 128) m ((m + 1) / 128) (by omega) (by omega)]

theorem encIntDigits_mem : ∀ n, ∀ d ∈ encIntDigits n n, 128 ≤ d ∧ d < 256 := by
  intro n
  induction n using Nat.strong_induction_on with
  | _ n ih =>
    match n with
    | 0 => intro d hd; simp [encIntDigits] at hd
    | m + 1 =>
      intro d hd
      rw [encIntDigits_step (m + 1) (by omega)] at hd
      rcases List.mem_cons.mp hd with h | h
      · subst h
        have hmod : (m + 1) % 128 < 128 := Nat.mod_lt _ (by omega)
        rw [or_128_of_lt _ hmod]
        omega
      · exact ih ((m + 1) / 128) (Nat.div_lt_self (by omega) (by omega)) d h

theorem encIntDigits_val : ∀ n,
    List.foldl (fun a d => a * 128 + d % 128) 0 (encIntDigits n n).reverse = n := by
  intro n
  induction n using Nat.strong_induction_on with
  | _ n ih =>
    match n with
    | 0 => rfl
    | m + 1 =>
      rw [encIntDigits_step (m + 1) (by omega), List.reverse_cons, List.foldl_append]
      have hlt : (m + 1) / 128 < m + 1 := Nat.div_lt_self (by omega) (by omega)
      rw [ih ((m + 1) / 128) hlt]
      simp only [List.foldl_cons, List.foldl_nil]
      have hmod : (m + 1) % 128 < 128 := Nat.mod_lt _ (by omega)
      rw [or_128_of_lt _ hmod]
      have : ((m + 1) % 128 + 128) % 128 = (m + 1) % 128 := by omega
      rw [this]
      omega

theorem encIntDigits_ne_nil (n : Nat) (h : 1 ≤ n) : encIntDigits n n ≠ [] := by
  rw [encIntDigits_step n h]
  simp

theorem decode_encode_int (n : Nat) (s : List Nat) :
    _decode_int (_encode_int n ++ s) = .ok (n, s) := by
  by_cases h : n < 0x80
  · rw [_encode_int, if_pos h]
    rw [List.cons_append, List.nil_append, _decode_int, if_pos h]
  · rw [_encode_int, if_neg h]
    rw [encIntDigits_step n (by omega)]
    have hmod : n % 128 < 128 := Nat.mod_lt _ (by omega)
    have hclear : (n % 128 ||| 128) &&& 127 = n % 128 := by
      rw [or_128_of_lt _ hmod]
      exact add_128_and_127 _ hmod
    rw [clearFlagHead, hclear]
    set tail := encIntDigits (n / 128) (n / 128) with htail
    have htne : tail ≠ [] := encIntDigits_ne_nil (n / 128) (by omega)
    have hrne : tail.reverse ≠ [] := by simpa using htne
    rw [List.reverse_cons]
    match hrev : tail.reverse with
    | [] => exact absurd hrev hrne
    | b0 :: brest =>
      have hb0mem : b0 ∈ tail := by
        have : b0 ∈ tail.reverse := by rw [hrev]; simp
        simpa using this
      obtain ⟨hb01, hb02⟩ := encIntDigits_mem (n / 128) b0 (by rwa [← htail])
      have hlist : ((b0 :: brest) ++ [n % 128]) ++ s = b0 :: (brest ++ (n % 128 :: s)) := by
        simp
      rw [hlist, _decode_int, if_neg (by omega)]
      have hlist2 : b0 :: (brest ++ (n % 128 :: s)) = tail.reverse ++ (n % 128 :: s) := by
        rw [hrev]
        simp
      rw [hlist2]
      have hflag : ∀ m ∈ tail.reverse, 128 ≤ m ∧ m < 256 := by
        intro m hm
        rw [List.mem_reverse] at hm
        exact encIntDigits_mem (n / 128) m hm
      rw [decIntLoop_msb tail.reverse 0 (n % 128) s hflag hmod]
      rw [show List.foldl (fun a d => a * 128 + d % 128) 0 tail.reverse = n / 128 from by
        rw [htail]; exact encIntDigits_val (n / 128)]
      have : n / 128 * 128 + n % 128 = n := by omega
      rw [this]

theorem encode_int_ne_nil (n : Nat) : _encode_int n ≠ [] := by
  by_cases h : n < 0x80
  · rw [_encode_int, if_pos h]
    simp
  · rw [_encode_int, if_neg h]
    rw [encIntDigits_step n (by omega), clearFlagHead]
    simp

/- ------------------------------------------------------------------ -/
/- ObjectID (der_x509.py lines 83-131).                               -/
/- ------------------------------------------------------------------ -/

/-- Embedding of the `ObjectID` dataclass (line 83): a display name and
the arc sequence (field `oid`). -/
structure ObjectID where
  name : Option String
  oid : List Nat
deriving DecidableEq, Repr

/-- Embedding of `ObjectID.__eq__` (lines 94-98): compares only the
`oid` field (the comparison against a non-`ObjectID` value is outside
this model). -/
def ObjectID.pyEq (a b : ObjectID) : Bool := a.oid == b.oid

/-- CPython `hash` applied to a `list` object: `list` does not implement
`__hash__`, so `hash` always raises `TypeError: unhashable type`. -/
def pyHashList (_ : List Nat) : Except PyErr Int := .error .typeError

/-- Embedding of `ObjectID.__hash__` (lines 100-101): `hash(self.oid)`,
where `self.oid` is a Python `list`. -/
def ObjectID.pyHash (o : ObjectID) : Except PyErr Int := pyHashList o.oid

/-- Embedding of `ObjectID.as_der` (lines 107-115).  The first content
byte is `bytearray.append(40 * oid[0] + oid[1])`, which raises
`ValueError` when the value is not a byte; fewer than two arcs raise
`IndexError`. -/
def ObjectID.as_der (o : ObjectID) : Except PyErr (List Nat) :=
  match o.oid with
  | a0 :: a1 :: rest =>
    if 40 * a0 + a1 < 256 then
      let buf : List Nat := (40 * a0 + a1) :: (rest.map _encode_int).join
      match _encode_len buf.length with
      | .error e => .error e
      | .ok pre => .ok (0x06 :: pre ++ buf)
    else .error .valueError
  | _ => .error .indexError

/-- The `while b:` arc loop of `ObjectID.from_der` (lines 127-129),
with fuel (each `_decode_int` consumes at least one byte). -/
def decodeArcsGo (fuel : Nat) (b : List Nat) : Except PyErr (List Nat) :=
  match b, fuel with
  | [], _ => .ok []
  | _ :: _, 0 => .error .outOfFuel
  | b0 :: rest, fuel + 1 =>
    match _decode_int (b0 :: rest) with
    | .error e => .error e
    | .ok (n, b2) =>
      match decodeArcsGo fuel b2 with
      | .error e => .error e
      | .ok arcs => .ok (n :: arcs)

/-- Embedding of `ObjectID.from_der` (lines 117-131): tag check, length
decode, slice of the content, first-arc clamp `min(b[0] // 40, 2)`,
then the varint arc loop over the remaining content. -/
def ObjectID.from_der (b : List Nat) : Except PyErr (ObjectID × List Nat) :=
  match b with
  | [] => .error .indexError
  | t :: tail =>
    if t = 0x06 then
      match _decode_len tail with
      | .error e => .error e
      | .ok (oid_len, _lb, buf) =>
        match buf.take oid_len with
        | [] => .error .indexError
        | c :: crest =>
          match decodeArcsGo crest.length crest with
          | .error e => .error e
          | .ok arcs =>
            .ok (⟨none, min (c / 40) 2 :: (c - min (c / 40) 2 * 40) :: arcs⟩,
                 buf.drop oid_len)
    else .error .assertionError

/-- An arc sequence that the single-byte first-component encoding of
`as_der` can represent and that `from_der`'s clamp decodes back: at
least two arcs, first arc at most 2, `40*a0 + a1` a byte, and a second
arc below 40 whenever the first is below 2. -/
def validArcs : List Nat → Bool
  | a0 :: a1 :: _ =>
    decide (a0 ≤ 2) && decide (40 * a0 + a1 < 256) &&
      (decide (2 ≤ a0) || decide (a1 < 40))
  | _ => false

/-- The identifier `from_der` reconstructs: same arcs, no display name. -/
def stripOid (o : ObjectID) : ObjectID := ⟨none, o.oid⟩

theorem decodeArcsGo_nil (fuel : Nat) : decodeArcsGo fuel [] = .ok [] := by
  cases fuel <;> rfl

theorem decodeArcsGo_encode : ∀ (ns : List Nat) (fuel : Nat),
    (ns.map _encode_int).join.length ≤ fuel →
    decodeArcsGo fuel (ns.map _encode_int).join = .ok ns := by
  intro ns
  induction ns with
  | nil =>
    intro fuel hf
    simp only [List.map_nil, List.join]
    exact decodeArcsGo_nil fuel
  | cons n ns ih =>
    intro fuel hf
    have hjoin : ((n :: ns).map _encode_int).join
        = _encode_int n ++ (ns.map _encode_int).join := by
      simp
    rw [hjoin] at hf ⊢
    have hne := encode_int_ne_nil n
    obtain ⟨e0, etail, hcc⟩ : ∃ e0 etail, _encode_int n = e0 :: etail := by
      cases hcc2 : _encode_int n with
      | nil => exact absurd hcc2 hne
      | cons a l => exact ⟨a, l, rfl⟩
    rw [hcc] at hf ⊢
    rw [List.cons_append] at hf ⊢
    have hfuel : ∃ f, fuel = f + 1 := by
      simp only [List.length_cons] at hf
      exact ⟨fuel - 1, by omega⟩
    obtain ⟨f, rfl⟩ := hfuel
    have hdec : _decode_int (e0 :: (etail ++ (ns.map _encode_int).join))
        = .ok (n, (ns.map _encode_int).join) := by
      rw [← List.cons_append, ← hcc]
      exact decode_encode_int n ((ns.map _encode_int).join)
    have hrec : decodeArcsGo f ((ns.map _encode_int).join) = .ok ns := by
      apply ih
      simp only [List.length_cons, List.length_append] at hf
      omega
    simp only [decodeArcsGo, hdec, hrec]

theorem as_der_ok_struct {o : ObjectID} {der : List Nat}
    (he : o.as_der = .ok der) :
    ∃ a0 a1 rest pre, o.oid = a0 :: a1 :: rest ∧ 40 * a0 + a1 < 256 ∧
      _encode_len ((40 * a0 + a1) :: (rest.map _encode_int).join).length = .ok pre ∧
      der = 0x06 :: pre ++ (40 * a0 + a1) :: (rest.map _encode_int).join := by
  rw [ObjectID.as_der] at he
  match hoid : o.oid with
  | [] => rw [hoid] at he; simp at he
  | [a0] => rw [hoid] at he; simp at he
  | a0 :: a1 :: rest =>
    rw [hoid] at he
    simp only [] at he
    by_cases hlt : 40 * a0 + a1 < 256
    · rw [if_pos hlt] at he
      cases hel : _encode_len ((40 * a0 + a1) :: (rest.map _encode_int).join).length with
      | error e => rw [hel] at he; simp at he
      | ok pre =>
        rw [hel] at he
        simp only [Except.ok.injEq] at he
        exact ⟨a0, a1, rest, pre, rfl, hlt, hel, he.symm⟩
    · rw [if_neg hlt] at he
      simp at he

theorem oid_as_der_from_der {o : ObjectID} {der : List Nat}
    (hv : validArcs o.oid = true) (he : o.as_der = .ok der) (s : List Nat) :
    ObjectID.from_der (der ++ s) = .ok (⟨none, o.oid⟩, s) := by
  obtain ⟨a0, a1, rest, pre, hoid, hlt, hel, hder⟩ := as_der_ok_struct he
  rw [hoid] at hv
  simp only [validArcs, Bool.and_eq_true, Bool.or_eq_true, decide_eq_true_eq] at hv
  obtain ⟨⟨hv1, hv2⟩, hv3⟩ := hv
  have hlen := encode_len_isLen hel
  have hdl := isLenEncoding_decode hlen (((40 * a0 + a1) :: (rest.map _encode_int).join) ++ s)
  have ha0 : min ((40 * a0 + a1) / 40) 2 = a0 := by
    rcases hv3 with h2le | hlt40
    · have he2 : a0 = 2 := by omega
      subst he2
      have hge : 2 ≤ (40 * 2 + a1) / 40 := by omega
      exact min_eq_right hge
    · have hdiv : (40 * a0 + a1) / 40 = a0 := by omega
      rw [hdiv]
      exact min_eq_left hv1
  have ha1 : 40 * a0 + a1 - a0 * 40 = a1 := by omega
  have hre : (0x06 :: pre ++ (40 * a0 + a1) :: (rest.map _encode_int).join) ++ s
      = 0x06 :: (pre ++ ((40 * a0 + a1) :: (rest.map _encode_int).join ++ s)) := by
    simp
  rw [hder, hre]
  have harcs := decodeArcsGo_encode rest ((rest.map _encode_int).join).length (le_refl _)
  simp only [ObjectID.from_der, hdl, List.take_left, List.drop_left, harcs, ha0, ha1,
    hoid, if_pos]

/- ------------------------------------------------------------------ -/
/- C4: ObjectID encode/decode round-trip.                             -/
/- ------------------------------------------------------------------ -/

/-- C4 (amended): decoding the DER encoding of an `ObjectID` recovers
the arc sequence for every valid arc sequence whose first two arcs fit
the single-byte first-component encoding (first arc at most 2,
`40*a0 + a1 < 256`, second arc below 40 when the first is below 2) and
whose encoding succeeds.  The arc sequence `[2, 999, 3]` named by the
original claim is NOT in this domain: `as_der` raises `ValueError`
(`bytearray.append(1079)`), see `oid_roundtrip_cex`. -/
theorem oid_roundtrip (o : ObjectID) (der : List Nat)
    (hv : validArcs o.oid = true) (he : o.as_der = .ok der) :
    ObjectID.from_der der = .ok (⟨none, o.oid⟩, []) := by
  have h := oid_as_der_from_der hv he []
  simpa using h

/-- Witness for `oid_roundtrip` at `[1, 2, 840, 113549, 1, 1, 11]`
(sha256WithRSAEncryption), whose DER encoding is
`06 09 2A 86 48 86 F7 0D 01 01 0B`. -/
theorem oid_roundtrip_witness :
    ObjectID.from_der [0x06, 0x09, 0x2A, 0x86, 0x48, 0x86, 0xF7, 0x0D, 0x01, 0x01, 0x0B]
      = .ok (⟨none, [1, 2, 840, 113549, 1, 1, 11]⟩, []) :=
  oid_roundtrip ⟨some "sha256WithRSAEncryption", [1, 2, 840, 113549, 1, 1, 11]⟩
    [0x06, 0x09, 0x2A, 0x86, 0x48, 0x86, 0xF7, 0x0D, 0x01, 0x01, 0x0B] rfl rfl

/-- Counterexample to C4 as stated: for the arc sequence `[2, 999, 3]`
(named in the claim as exercising the first-arc clamp) the encoder does
not even produce an encoding — `buf.append((40 * 2) + 999)` raises
`ValueError: byte must be in range(0, 256)` — so
`ObjectID.from_der (ObjectID(arcs).as_der())` cannot round-trip. -/
theorem oid_roundtrip_cex :
    ObjectID.as_der ⟨none, [2, 999, 3]⟩ = .error .valueError := rfl

/- ------------------------------------------------------------------ -/
/- C5: ObjectID equality and hash.                                    -/
/- ------------------------------------------------------------------ -/

/-- C5: equality of `ObjectID` values depends only on the arc sequence,
never on the display name — two identifiers with identical arcs and any
names are equal.  The hash half of the claim is a code bug: `__hash__`
is `hash(self.oid)` where `self.oid` is a Python `list`, which is
unhashable, so every call to `hash` on an `ObjectID` raises `TypeError`
instead of returning a value; hash is not a (total) function of the arc
sequence because it is not a function at all. -/
theorem oid_eq_ignores_name_hash_raises (n1 n2 : Option String) (l : List Nat) :
    ObjectID.pyEq ⟨n1, l⟩ ⟨n2, l⟩ = true ∧
    ObjectID.pyHash ⟨n1, l⟩ = .error .typeError := by
  refine ⟨?_, rfl⟩
  simp [ObjectID.pyEq]

/-- Evaluation of the C5 failing input: the two spec examples are equal
(arcs agree, names differ), and `hash` raises `TypeError` on both. -/
theorem oid_eq_ignores_name_hash_raises_witness :
    ObjectID.pyEq ⟨some "rsaEncryption", [1, 2, 840, 113549, 1, 1, 1]⟩
        ⟨none, [1, 2, 840, 113549, 1, 1, 1]⟩ = true ∧
    ObjectID.pyHash ⟨some "rsaEncryption", [1, 2, 840, 113549, 1, 1, 1]⟩
        = .error .typeError :=
  oid_eq_ignores_name_hash_raises (some "rsaEncryption") none [1, 2, 840, 113549, 1, 1, 1]

/- ------------------------------------------------------------------ -/
/- TBSCertificate (der_x509.py lines 179-244).                        -/
/- ------------------------------------------------------------------ -/

/-- Embedding of the `TBSCertificate` dataclass (lines 179-191): each
field is the raw captured TLV span (tag + length + value bytes). -/
structure TBSCertificate where
  serial_number : List Nat
  signature : List Nat
  issuer : List Nat
  validity : List Nat
  subject : List Nat
  subject_public_key_info : List Nat
  version : Option (List Nat) := none
  issuer_unique_id : Option (List Nat) := none
  subject_unique_id : Option (List Nat) := none
  extensions : Option (List Nat) := none
deriving DecidableEq, Repr

/-- The repeated step `(tag, dec_bytes), b = _dumb_decode(b); assert
tag == want` used throughout `TBSCertificate.from_der` (lines 201-227)
and its siblings. -/
def readTagged (want : Nat) (b : List Nat) : Except PyErr (List Nat × List Nat) :=
  match _dumb_decode b with
  | .error e => .error e
  | .ok ((t, d), b2) => if t = want then .ok (d, b2) else .error .assertionError

/-- One arm of the optional-field cascade (lines 231-242): if the
current element's tag is `want`, record its bytes and, when the buffer
is non-empty, read the next element into the current-element slot
(mirroring the Python variable reassignment); otherwise leave the state
untouched. -/
def optField (want : Nat) : ((Nat × List Nat) × List Nat) →
    Except PyErr (Option (List Nat) × ((Nat × List Nat) × List Nat))
  | ((tag, dec), b) =>
    if tag = want then
      match b with
      | [] => .ok (some dec, ((tag, dec), []))
      | _ :: _ =>
        match _dumb_decode b with
        | .error e => .error e
        | .ok st2 => .ok (some dec, st2)
    else .ok (none, ((tag, dec), b))

/-- The `if b:` optional tail of `TBSCertificate.from_der` (lines
229-242): issuerUniqueID (0xA1), subjectUniqueID (0xA2), extensions
(0xA3), tried in that order on the running `(tag, dec_bytes), b`
state; an element read but matching none of the tags is dropped. -/
def tbsOptional (b : List Nat) :
    Except PyErr (Option (List Nat) × Option (List Nat) × Option (List Nat)) :=
  match b with
  | [] => .ok (none, none, none)
  | _ :: _ =>
    match _dumb_decode b with
    | .error e => .error e
    | .ok st =>
    match optField 0xA1 st with
    | .error e => .error e
    | .ok (iuid, st) =>
    match optField 0xA2 st with
    | .error e => .error e
    | .ok (suid, st) =>
    match optField 0xA3 st with
    | .error e => .error e
    | .ok (exts, _) => .ok (iuid, suid, exts)

/-- The fixed-order part of `TBSCertificate.from_der` after the serial
number (lines 209-244): signature, issuer, validity, subject,
subjectPublicKeyInfo (all tag 0x30), then the optional tail. -/
def tbsAfterSerial (version : Option (List Nat)) (serial : List Nat) (b : List Nat) :
    Except PyErr TBSCertificate :=
  match readTagged 0x30 b with
  | .error e => .error e
  | .ok (signature, b) =>
  match readTagged 0x30 b with
  | .error e => .error e
  | .ok (issuer, b) =>
  match readTagged 0x30 b with
  | .error e => .error e
  | .ok (validity, b) =>
  match readTagged 0x30 b with
  | .error e => .error e
  | .ok (subject, b) =>
  match readTagged 0x30 b with
  | .error e => .error e
  | .ok (spki, b) =>
  match tbsOptional b with
  | .error e => .error e
  | .ok (iuid, suid, exts) =>
    .ok { version := version, serial_number := serial, signature := signature,
          issuer := issuer, validity := validity, subject := subject,
          subject_public_key_info := spki, issuer_unique_id := iuid,
          subject_unique_id := suid, extensions := exts }

/-- The body of `TBSCertificate.from_der` applied to the content of the
outer SEQUENCE (lines 199-244): optional version (context tag 0xA0)
followed by the serial number (tag 0x02), then the fixed-order tail. -/
def TBSCertificate.fromDerContent (b : List Nat) : Except PyErr TBSCertificate :=
  match _dumb_decode b with
  | .error e => .error e
  | .ok ((tag, dec), b0) =>
    if tag = 0xA0 then
      match readTagged 0x02 b0 with
      | .error e => .error e
      | .ok (serial, b1) => tbsAfterSerial (some dec) serial b1
    else if tag = 0x02 then tbsAfterSerial none dec b0
    else .error .assertionError

/-- Embedding of `TBSCertificate.from_der` (lines 193-244): outer
SEQUENCE tag check, length decode, slice of the declared content (the
bytes after it are the returned remainder), then the field-by-field
decode of the content. -/
def TBSCertificate.from_der (b : List Nat) :
    Except PyErr (TBSCertificate × List Nat) :=
  match b with
  | [] => .error .indexError
  | t :: tail =>
    if t = 0x30 then
      match _decode_len tail with
      | .error e => .error e
      | .ok (cert_len, _lb, buf) =>
        match TBSCertificate.fromDerContent (buf.take cert_len) with
        | .error e => .error e
        | .ok tbs => .ok (tbs, buf.drop cert_len)
    else .error .assertionError

/-- Concatenation of the captured field spans in fixed X.509 order
(absent optional fields contribute nothing). -/
def TBSCertificate.fieldConcat (t : TBSCertificate) : List Nat :=
  t.version.getD [] ++ t.serial_number ++ t.signature ++ t.issuer ++ t.validity ++
    t.subject ++ t.subject_public_key_info ++ t.issuer_unique_id.getD [] ++
    t.subject_unique_id.getD [] ++ t.extensions.getD []

/- ------------------------------------------------------------------ -/
/- Certificate (der_x509.py lines 247-275).                           -/
/- ------------------------------------------------------------------ -/

/-- Embedding of the `Certificate` dataclass (lines 247-251). -/
structure Certificate where
  tbs_certificate : TBSCertificate
  signature_algorithm : List Nat
  signature_value : List Nat
deriving DecidableEq, Repr

/-- The body of `Certificate.from_der` applied to the content of the
outer SEQUENCE (lines 258-266): TBSCertificate, signatureAlgorithm
(tag 0x30), signatureValue (tag 0x03), and the `assert not b` demanding
that the outer SEQUENCE content be fully consumed. -/
def Certificate.fromDerContent (b : List Nat) : Except PyErr Certificate :=
  match TBSCertificate.from_der b with
  | .error e => .error e
  | .ok (tbs, b1) =>
  match readTagged 0x30 b1 with
  | .error e => .error e
  | .ok (signature_algorithm, b2) =>
  match readTagged 0x03 b2 with
  | .error e => .error e
  | .ok (signature_value, b3) =>
    if b3 = [] then
      .ok { tbs_certificate := tbs, signature_algorithm := signature_algorithm,
            signature_value := signature_value }
    else .error .assertionError

/-- Embedding of `Certificate.from_der` (lines 253-275): outer SEQUENCE
tag check, length decode, slice; bytes beyond the declared outer length
are returned as the unconsumed remainder `rem`. -/
def Certificate.from_der (b : List Nat) : Except PyErr (Certificate × List Nat) :=
  match b with
  | [] => .error .indexError
  | t :: tail =>
    if t = 0x30 then
      match _decode_len tail with
      | .error e => .error e
      | .ok (cert_len, _lb, buf) =>
        match Certificate.fromDerContent (buf.take cert_len) with
        | .error e => .error e
        | .ok c => .ok (c, buf.drop cert_len)
    else .error .assertionError

theorem readTagged_ok {want : Nat} {b d b2 : List Nat}
    (h : readTagged want b = .ok (d, b2)) : b = d ++ b2 := by
  rw [readTagged] at h
  split at h
  · simp at h
  · rename_i t d' b' heq
    split at h
    · simp only [Except.ok.injEq, Prod.mk.injEq] at h
      obtain ⟨rfl, rfl⟩ := h
      exact dumb_decode_split heq
    · simp at h

theorem readTagged_tag {want : Nat} {b d b2 : List Nat}
    (h : readTagged want b = .ok (d, b2)) :
    _dumb_decode b = .ok ((want, d), b2) := by
  rw [readTagged] at h
  split at h
  · simp at h
  · rename_i t d' b' heq
    split at h
    · rename_i ht
      simp only [Except.ok.injEq, Prod.mk.injEq] at h
      obtain ⟨rfl, rfl⟩ := h
      rw [heq, ht]
    · simp at h

theorem optField_spec {want t : Nat} {d b : List Nat}
    {o : Option (List Nat)} {t' : Nat} {d' b' : List Nat}
    (h : optField want ((t, d), b) = .ok (o, ((t', d'), b'))) :
    (o = none ∧ t ≠ want ∧ t' = t ∧ d' = d ∧ b' = b) ∨
    (o = some d ∧ t = want ∧ b = [] ∧ t' = t ∧ d' = d ∧ b' = []) ∨
    (o = some d ∧ t = want ∧ b = d' ++ b') := by
  simp only [optField] at h
  split at h
  · rename_i ht
    split at h
    · simp only [Except.ok.injEq, Prod.mk.injEq] at h
      obtain ⟨rfl, ⟨rfl, rfl⟩, rfl⟩ := h
      exact Or.inr (Or.inl ⟨rfl, ht, rfl, rfl, rfl, rfl⟩)
    · split at h
      · simp at h
      · rename_i x xs st2 heq
        obtain ⟨⟨tt, dd⟩, bb⟩ := st2
        simp only [Except.ok.injEq, Prod.mk.injEq] at h
        obtain ⟨rfl, ⟨rfl, rfl⟩, rfl⟩ := h
        exact Or.inr (Or.inr ⟨rfl, ht, dumb_decode_split heq⟩)
  · rename_i ht
    simp only [Except.ok.injEq, Prod.mk.injEq] at h
    obtain ⟨rfl, ⟨rfl, rfl⟩, rfl⟩ := h
    exact Or.inl ⟨rfl, ht, rfl, rfl, rfl⟩

theorem tbsOptional_concat {b : List Nat} {iuid suid exts : Option (List Nat)}
    (h : tbsOptional b = .ok (iuid, suid, exts)) :
    ∃ junk, b = iuid.getD [] ++ (suid.getD [] ++ (exts.getD [] ++ junk)) := by
  cases b with
  | nil =>
    have h2 : (Except.ok (none, none, none) :
        Except PyErr (Option (List Nat) × Option (List Nat) × Option (List Nat)))
        = .ok (iuid, suid, exts) := h
    simp only [Except.ok.injEq, Prod.mk.injEq] at h2
    obtain ⟨rfl, rfl, rfl⟩ := h2
    exact ⟨[], rfl⟩
  | cons x xs =>
    rw [tbsOptional] at h
    split at h
    · simp at h
    · rename_i st0 heq0
      obtain ⟨⟨t0, d0⟩, b0⟩ := st0
      split at h
      · simp at h
      · rename_i o1 st1 heq1
        obtain ⟨⟨t1, d1⟩, b1⟩ := st1
        split at h
        · simp at h
        · rename_i o2 st2 heq2
          obtain ⟨⟨t2, d2⟩, b2⟩ := st2
          split at h
          · simp at h
          · rename_i o3 st3 heq3
            obtain ⟨⟨t3, d3⟩, b3⟩ := st3
            simp only [Except.ok.injEq, Prod.mk.injEq] at h
            obtain ⟨rfl, rfl, rfl⟩ := h
            have hb := dumb_decode_split heq0
            have s1spec := optField_spec heq1
            have s2spec := optField_spec heq2
            have s3spec := optField_spec heq3
            clear heq0 heq1 heq2 heq3
            rcases s1spec with ⟨rfl, hne1, ht1, hd1, hbx1⟩ |
              ⟨rfl, hw1, hbn1, ht1, hd1, hbx1⟩ | ⟨rfl, hw1, hbs1⟩
            · -- issuerUniqueID skipped
              rcases s2spec with ⟨rfl, hne2, ht2, hd2, hbx2⟩ |
                ⟨rfl, hw2, hbn2, ht2, hd2, hbx2⟩ | ⟨rfl, hw2, hbs2⟩
              · rcases s3spec with ⟨rfl, hne3, ht3, hd3, hbx3⟩ |
                  ⟨rfl, hw3, hbn3, ht3, hd3, hbx3⟩ | ⟨rfl, hw3, hbs3⟩
                · exact ⟨x :: xs, by simp⟩
                · refine ⟨[], ?_⟩
                  have hb0 : b0 = [] := by rw [← hbx1, ← hbx2]; exact hbn3
                  rw [hb, hd2, hd1, hb0]; simp
                · refine ⟨b0, ?_⟩
                  rw [hb, hd2, hd1]; simp
              · rcases s3spec with ⟨rfl, hne3, ht3, hd3, hbx3⟩ |
                  ⟨rfl, hw3, hbn3, ht3, hd3, hbx3⟩ | ⟨rfl, hw3, hbs3⟩
                · refine ⟨[], ?_⟩
                  have hb0 : b0 = [] := by rw [← hbx1]; exact hbn2
                  rw [hb, hd1, hb0]; simp
                · exfalso; omega
                · exfalso; omega
              · rcases s3spec with ⟨rfl, hne3, ht3, hd3, hbx3⟩ |
                  ⟨rfl, hw3, hbn3, ht3, hd3, hbx3⟩ | ⟨rfl, hw3, hbs3⟩
                · refine ⟨b0, ?_⟩
                  rw [hb, hd1]; simp
                · refine ⟨[], ?_⟩
                  rw [hb, hd1, ← hbx1, hbs2, hbn3]; simp
                · refine ⟨b2, ?_⟩
                  rw [hb, hd1, ← hbx1, hbs2]; simp
            · -- issuerUniqueID stored with empty tail (stale state)
              rcases s2spec with ⟨rfl, hne2, ht2, hd2, hbx2⟩ |
                ⟨rfl, hw2, hbn2, ht2, hd2, hbx2⟩ | ⟨rfl, hw2, hbs2⟩
              · rcases s3spec with ⟨rfl, hne3, ht3, hd3, hbx3⟩ |
                  ⟨rfl, hw3, hbn3, ht3, hd3, hbx3⟩ | ⟨rfl, hw3, hbs3⟩
                · refine ⟨[], ?_⟩
                  rw [hb, hbn1]; simp
                · exfalso; omega
                · exfalso; omega
              · exfalso; omega
              · exfalso; omega
            · -- issuerUniqueID stored, next element read
              rcases s2spec with ⟨rfl, hne2, ht2, hd2, hbx2⟩ |
                ⟨rfl, hw2, hbn2, ht2, hd2, hbx2⟩ | ⟨rfl, hw2, hbs2⟩
              · rcases s3spec with ⟨rfl, hne3, ht3, hd3, hbx3⟩ |
                  ⟨rfl, hw3, hbn3, ht3, hd3, hbx3⟩ | ⟨rfl, hw3, hbs3⟩
                · refine ⟨b0, ?_⟩
                  rw [hb]; simp
                · refine ⟨[], ?_⟩
                  rw [hb, hbs1, hd2, ← hbx2, hbn3]; simp
                · refine ⟨b1, ?_⟩
                  rw [hb, hbs1, hd2]; simp
              · rcases s3spec with ⟨rfl, hne3, ht3, hd3, hbx3⟩ |
                  ⟨rfl, hw3, hbn3, ht3, hd3, hbx3⟩ | ⟨rfl, hw3, hbs3⟩
                · refine ⟨[], ?_⟩
                  rw [hb, hbs1, hbn2]; simp
                · exfalso; omega
                · exfalso; omega
              · rcases s3spec with ⟨rfl, hne3, ht3, hd3, hbx3⟩ |
                  ⟨rfl, hw3, hbn3, ht3, hd3, hbx3⟩ | ⟨rfl, hw3, hbs3⟩
                · refine ⟨b1, ?_⟩
                  rw [hb, hbs1]; simp
                · refine ⟨[], ?_⟩
                  rw [hb, hbs1, hbs2, hbn3]; simp
                · refine ⟨b2, ?_⟩
                  rw [hb, hbs1, hbs2]; simp

theorem tbsAfterSerial_concat {version : Option (List Nat)} {serial b : List Nat}
    {tbs : TBSCertificate} (h : tbsAfterSerial version serial b = .ok tbs) :
    tbs.version = version ∧ tbs.serial_number = serial ∧
    ∃ junk, b = tbs.signature ++ (tbs.issuer ++ (tbs.validity ++ (tbs.subject ++
      (tbs.subject_public_key_info ++ (tbs.issuer_unique_id.getD [] ++
      (tbs.subject_unique_id.getD [] ++ (tbs.extensions.getD [] ++ junk))))))) := by
  rw [tbsAfterSerial] at h
  split at h
  · simp at h
  · rename_i sig b1 heq1
    split at h
    · simp at h
    · rename_i iss b2 heq2
      split at h
      · simp at h
      · rename_i val b3 heq3
        split at h
        · simp at h
        · rename_i sub b4 heq4
          split at h
          · simp at h
          · rename_i spk b5 heq5
            split at h
            · simp at h
            · rename_i iuid suid exts heq6
              simp only [Except.ok.injEq] at h
              subst h
              obtain ⟨junk, hjunk⟩ := tbsOptional_concat heq6
              refine ⟨rfl, rfl, junk, ?_⟩
              rw [readTagged_ok heq1, readTagged_ok heq2, readTagged_ok heq3,
                readTagged_ok heq4, readTagged_ok heq5, hjunk]

theorem tbs_content_concat {content : List Nat} {tbs : TBSCertificate}
    (h : TBSCertificate.fromDerContent content = .ok tbs) :
    ∃ junk, content = tbs.fieldConcat ++ junk := by
  rw [TBSCertificate.fromDerContent] at h
  split at h
  · simp at h
  · rename_i tag dec b0 heq0
    have hb := dumb_decode_split heq0
    split at h
    · -- version present (tag 0xA0)
      split at h
      · simp at h
      · rename_i serial b1 heqser
        have hser := readTagged_ok heqser
        obtain ⟨hv, hs, junk, hjunk⟩ := tbsAfterSerial_concat h
        refine ⟨junk, ?_⟩
        have e1 : content = dec ++ (serial ++ b1) := by
          rw [hb]
          exact congrArg (dec ++ ·) hser
        have e2 : content = dec ++ (serial ++ (tbs.signature ++ (tbs.issuer ++
            (tbs.validity ++ (tbs.subject ++ (tbs.subject_public_key_info ++
            (tbs.issuer_unique_id.getD [] ++ (tbs.subject_unique_id.getD [] ++
            (tbs.extensions.getD [] ++ junk))))))))) := by
          rw [e1]
          exact congrArg (fun z => dec ++ (serial ++ z)) hjunk
        rw [e2, TBSCertificate.fieldConcat, hv, hs]
        simp
    · split at h
      · -- no version, first element is the serial number
        obtain ⟨hv, hs, junk, hjunk⟩ := tbsAfterSerial_concat h
        refine ⟨junk, ?_⟩
        have e2 : content = dec ++ (tbs.signature ++ (tbs.issuer ++
            (tbs.validity ++ (tbs.subject ++ (tbs.subject_public_key_info ++
            (tbs.issuer_unique_id.getD [] ++ (tbs.subject_unique_id.getD [] ++
            (tbs.extensions.getD [] ++ junk)))))))) := by
          rw [hb]
          exact congrArg (dec ++ ·) hjunk
        rw [e2, TBSCertificate.fieldConcat, hv, hs]
        simp
      · simp at h

/-- C2 (amended): for every byte string accepted by
`TBSCertificate.from_der`, concatenating the captured field spans in
fixed X.509 order yields a PREFIX of the content of the outer
TBSCertificate SEQUENCE, not always the whole of it: the optional-field
tail silently reads and drops an element that matches none of the
recognised context tags (and anything after it), so such trailing
elements are absent from every captured span.  Equality holds exactly
when that dropped suffix is empty; `tbs_concat_cex` shows an accepted
input whose field concatenation is strictly shorter than the content. -/
theorem tbs_from_der_concat (b : List Nat) (tbs : TBSCertificate) (rem : List Nat)
    (h : TBSCertificate.from_der b = .ok (tbs, rem)) :
    ∃ lb content junk, b = 0x30 :: (lb ++ (content ++ rem)) ∧
      content = tbs.fieldConcat ++ junk := by
  rw [TBSCertificate.from_der.eq_def] at h
  split at h
  · simp at h
  · rename_i t tail
    split at h
    · split at h
      · simp at h
      · rename_i hteq xsc cert_len lb buf heqlen
        split at h
        · simp at h
        · rename_i tbs2 heqc
          simp only [Except.ok.injEq, Prod.mk.injEq] at h
          obtain ⟨rfl, rfl⟩ := h
          obtain ⟨junk, hjunk⟩ := tbs_content_concat heqc
          refine ⟨lb, buf.take cert_len, junk, ?_, hjunk⟩
          rw [hteq, decode_len_split heqlen, List.take_append_drop]
    · simp at h

/-- Content of a minimal TBSCertificate: serial number `02 00` and five
empty SEQUENCEs (signature, issuer, validity, subject, SPKI). -/
def tbsContentBytes : List Nat :=
  [0x02, 0x00, 0x30, 0x00, 0x30, 0x00, 0x30, 0x00, 0x30, 0x00, 0x30, 0x00]

/-- The TBSCertificate value decoded from `tbsContentBytes`. -/
def tbsExample : TBSCertificate :=
  { serial_number := [0x02, 0x00], signature := [0x30, 0x00],
    issuer := [0x30, 0x00], validity := [0x30, 0x00], subject := [0x30, 0x00],
    subject_public_key_info := [0x30, 0x00] }

/-- Witness for `tbs_from_der_concat` at a minimal TBSCertificate. -/
theorem tbs_from_der_concat_witness :
    ∃ lb content junk,
      (0x30 :: 0x0E :: tbsContentBytes) = 0x30 :: (lb ++ (content ++ [])) ∧
      content = tbsExample.fieldConcat ++ junk :=
  tbs_from_der_concat (0x30 :: 0x0E :: tbsContentBytes) tbsExample [] rfl

/-- Counterexample to C2 as stated: the input below is accepted by
`TBSCertificate.from_der` (it is a minimal TBSCertificate whose content
ends with an extra NULL element `05 00`), yet concatenating the captured
field spans gives only the first 12 bytes of the 14-byte SEQUENCE
content — the extra element was read and dropped, so the concatenation
does not reproduce the content byte-for-byte. -/
theorem tbs_concat_cex :
    TBSCertificate.from_der
        [0x30, 0x0E, 0x02, 0x00, 0x30, 0x00, 0x30, 0x00, 0x30, 0x00, 0x30, 0x00,
         0x30, 0x00, 0x05, 0x00] = .ok (tbsExample, []) ∧
    tbsExample.fieldConcat ≠
        [0x02, 0x00, 0x30, 0x00, 0x30, 0x00, 0x30, 0x00, 0x30, 0x00, 0x30, 0x00,
         0x05, 0x00] :=
  ⟨rfl, by decide⟩

/-- Content of a minimal Certificate: the TBSCertificate TLV, an empty
signatureAlgorithm SEQUENCE and an empty signatureValue BIT STRING. -/
def certContent : List Nat :=
  [0x30, 0x0C] ++ tbsContentBytes ++ [0x30, 0x00, 0x03, 0x00]

/-- A minimal well-formed Certificate encoding (20 bytes). -/
def certBytes : List Nat := [0x30, 0x12] ++ certContent

/-- The Certificate value decoded from `certBytes`. -/
def certExample : Certificate :=
  { tbs_certificate := tbsExample, signature_algorithm := [0x30, 0x00],
    signature_value := [0x03, 0x00] }

/-- C3 (amended): appending extra bytes after a well-formed Certificate
encoding (outer SEQUENCE with accurate length field whose content the
decoder accepts) does NOT make `Certificate.from_der` fail: the decode
succeeds unchanged and hands the appended bytes back as the unconsumed
remainder.  The internal `assert not b` (the spec's `TrailingData`)
fires only for extra bytes INSIDE the declared outer SEQUENCE content,
never for bytes appended after it. -/
theorem cert_append_remainder (lb content : List Nat) (c : Certificate)
    (extra : List Nat)
    (hlen : isLenEncoding lb content.length = true)
    (hcontent : Certificate.fromDerContent content = .ok c) :
    Certificate.from_der (0x30 :: (lb ++ (content ++ extra))) = .ok (c, extra) := by
  have hdl := isLenEncoding_decode hlen (content ++ extra)
  have htake : (content ++ extra).take content.length = content := List.take_left' rfl
  have hdrop : (content ++ extra).drop content.length = extra := List.drop_left' rfl
  simp only [Certificate.from_der, hdl, htake, hdrop, hcontent, if_pos]

/-- Witness for `cert_append_remainder`: appending `0xAB` to a concrete
minimal certificate yields the same certificate plus remainder `[0xAB]`. -/
theorem cert_append_remainder_witness :
    Certificate.from_der (certBytes ++ [0xAB]) = .ok (certExample, [0xAB]) := by
  have h := cert_append_remainder [0x12] certContent certExample [0xAB] rfl rfl
  simpa [certBytes, certContent] using h

/-- Counterexample to C3 as stated: appending one extra byte after a
valid, well-formed Certificate encoding does not fail with TrailingData
(or at all) — decode succeeds and returns the byte as remainder, exactly
as the data-model sentence of the spec describes. -/
theorem cert_trailing_cex :
    Certificate.from_der (certBytes ++ [0xAB]) = .ok (certExample, [0xAB]) ∧
    Certificate.from_der certBytes = .ok (certExample, []) := ⟨rfl, rfl⟩

/- ------------------------------------------------------------------ -/
/- CertExtension (der_x509.py lines 153-176).                         -/
/- ------------------------------------------------------------------ -/

/-- Embedding of the `CertExtension` dataclass (lines 153-157).  The
`extension` field is a `DerSerializable`, represented here by the byte
sequence its `as_der()` returns. -/
structure CertExtension where
  ext_id : ObjectID
  critical : Bool
  extension : List Nat
deriving DecidableEq, Repr

/-- Embedding of `CertExtension.as_der` (lines 159-176): OID bytes, the
fixed BOOLEAN TRUE `01 01 FF` when `critical`, then tag `0x04` followed
by `_encode_int(len(extension_der))` — NOTE: `_encode_int`, the base-128
OID-arc varint, not `_encode_len` — and the inner bytes; the whole
wrapped in a SEQUENCE whose (outer) length uses `_encode_len`. -/
def CertExtension.as_der (e : CertExtension) : Except PyErr (List Nat) :=
  match e.ext_id.as_der with
  | .error err => .error err
  | .ok oidDer =>
    let buf := oidDer ++ (if e.critical then [0x01, 0x01, 0xFF] else [])
    let extension_der := e.extension
    let buf := buf ++ [0x04] ++ _encode_int extension_der.length ++ extension_der
    match _encode_len buf.length with
    | .error err => .error err
    | .ok pre => .ok (0x30 :: pre ++ buf)

set_option maxRecDepth 16384 in
/-- C9: evaluation at the failing input.  For a non-critical extension
with OID 2.5.29.19 (basicConstraints) whose inner value's DER encoding
is 128 bytes long, `as_der` emits the OCTET STRING header
`04 81 00` — `_encode_int 128 = [0x81, 0x00]`, the base-128 varint —
where the claim (and DER) require the length encoding
`_encode_len 128 = [0x81, 0x80]`, i.e. header `04 81 80`.  The third
conjunct exhibits the two encoders disagreeing at 128. -/
theorem cert_ext_octet_len_eval :
    CertExtension.as_der
        ⟨⟨none, [2, 5, 29, 19]⟩, false, List.replicate 128 0⟩
      = .ok ([0x30, 0x81, 0x88, 0x06, 0x03, 0x55, 0x1D, 0x13, 0x04, 0x81, 0x00]
          ++ List.replicate 128 0) ∧
    _encode_len 128 = .ok [0x81, 0x80] ∧
    _encode_int 128 = [0x81, 0x00] := ⟨rfl, rfl, rfl⟩

/- ------------------------------------------------------------------ -/
/- OpenSSLCertAux (der_x509.py lines 334-380) and the                 -/
/- trusted-certificate combinators (lines 383-394).                   -/
/- ------------------------------------------------------------------ -/

/-- Embedding of the `OpenSSLCertAux` dataclass (lines 334-337). -/
structure OpenSSLCertAux where
  trust : List ObjectID
  reject : List ObjectID
deriving DecidableEq, Repr

/-- The `for oid in oids: buf.extend(oid.as_der())` loop of
`encode_oids` (lines 341-343). -/
def encode_oids_buf : List ObjectID → Except PyErr (List Nat)
  | [] => .ok []
  | o :: rest =>
    match o.as_der with
    | .error e => .error e
    | .ok d =>
      match encode_oids_buf rest with
      | .error e => .error e
      | .ok r => .ok (d ++ r)

/-- Embedding of `OpenSSLCertAux.encode_oids` (lines 339-346). -/
def OpenSSLCertAux.encode_oids (oids : List ObjectID) (tag : Nat) :
    Except PyErr (List Nat) :=
  match encode_oids_buf oids with
  | .error e => .error e
  | .ok buf =>
    match _encode_len buf.length with
    | .error e => .error e
    | .ok pre => .ok (tag :: pre ++ buf)

/-- Embedding of `OpenSSLCertAux.as_der` (lines 348-356): trust list
always, reject list (tag 0xA0) only when non-empty. -/
def OpenSSLCertAux.as_der (a : OpenSSLCertAux) : Except PyErr (List Nat) :=
  match OpenSSLCertAux.encode_oids a.trust 0x30 with
  | .error e => .error e
  | .ok t =>
    match (if a.reject.isEmpty then .ok t
      else match OpenSSLCertAux.encode_oids a.reject 0xA0 with
        | .error e => .error e
        | .ok r => .ok (t ++ r) : Except PyErr (List Nat)) with
    | .error e => .error e
    | .ok buf =>
      match _encode_len buf.length with
      | .error e => .error e
      | .ok pre => .ok (0x30 :: pre ++ buf)

/-- The `while trust_b:` / `while reject_b:` OID loops of
`OpenSSLCertAux.from_der` (lines 367-370, 376-378), with fuel (each
`ObjectID.from_der` consumes at least one byte). -/
def parseOidListGo (fuel : Nat) (b : List Nat) : Except PyErr (List ObjectID) :=
  match b, fuel with
  | [], _ => .ok []
  | _ :: _, 0 => .error .outOfFuel
  | b0 :: rest, fuel + 1 =>
    match ObjectID.from_der (b0 :: rest) with
    | .error e => .error e
    | .ok (oid, b2) =>
      match parseOidListGo fuel b2 with
      | .error e => .error e
      | .ok oids => .ok (oid :: oids)

/-- The OID-list loop at its natural fuel. -/
def parseOidList (b : List Nat) : Except PyErr (List ObjectID) :=
  parseOidListGo b.length b

/-- The body of `OpenSSLCertAux.from_der` applied to the content of the
outer SEQUENCE (lines 364-380): mandatory trust SEQUENCE (tag 0x30),
then an optional 0xA0-tagged reject list detected by peeking the next
byte; leftover bytes after the reject list are ignored. -/
def OpenSSLCertAux.fromDerContent (b : List Nat) : Except PyErr OpenSSLCertAux :=
  match b with
  | [] => .error .indexError
  | t :: tail =>
    if t = 0x30 then
      match _decode_len tail with
      | .error e => .error e
      | .ok (trust_len, _lb, buf) =>
        match parseOidList (buf.take trust_len) with
        | .error e => .error e
        | .ok trust =>
          match buf.drop trust_len with
          | [] => .ok ⟨trust, []⟩
          | x :: tail2 =>
            if x = 0xA0 then
              match _decode_len tail2 with
              | .error e => .error e
              | .ok (reject_len, _lb2, buf2) =>
                match parseOidList (buf2.take reject_len) with
                | .error e => .error e
                | .ok reject => .ok ⟨trust, reject⟩
            else .ok ⟨trust, []⟩
    else .error .assertionError

/-- Embedding of `OpenSSLCertAux.from_der` (lines 358-380): outer
SEQUENCE tag check, length decode, slice (bytes beyond the declared
length are the returned remainder), then the content decoder. -/
def OpenSSLCertAux.from_der (b : List Nat) :
    Except PyErr (OpenSSLCertAux × List Nat) :=
  match b with
  | [] => .error .indexError
  | t :: tail =>
    if t = 0x30 then
      match _decode_len tail with
      | .error e => .error e
      | .ok (aux_len, _lb, buf) =>
        match OpenSSLCertAux.fromDerContent (buf.take aux_len) with
        | .error e => .error e
        | .ok aux => .ok (aux, buf.drop aux_len)
    else .error .assertionError

/-- Embedding of the `PEMBlock` dataclass (lines 283-286). -/
structure PEMBlock where
  name : String
  content : List Nat
deriving DecidableEq, Repr

/-- Embedding of `to_trusted_certificate` (lines 383-384). -/
def to_trusted_certificate (cert : List Nat) (certaux : OpenSSLCertAux) :
    Except PyErr PEMBlock :=
  match certaux.as_der with
  | .error e => .error e
  | .ok auxDer => .ok ⟨"TRUSTED CERTIFICATE", cert ++ auxDer⟩

/-- Embedding of `parse_trusted_certificate` (lines 387-394): label
check, byte-accounting Certificate parse, aux parse. -/
def parse_trusted_certificate (pb : PEMBlock) :
    Except PyErr (List Nat × OpenSSLCertAux × List Nat) :=
  if pb.name = "TRUSTED CERTIFICATE" then
    match Certificate.from_der pb.content with
    | .error e => .error e
    | .ok (_cert, trailing) =>
      match OpenSSLCertAux.from_der trailing with
      | .error e => .error e
      | .ok (cert_aux, trailing2) =>
        .ok (pb.content.take (pb.content.length - trailing.length), cert_aux, trailing2)
  else .error .assertionError

/-- Python `==` on lists of `ObjectID`: elementwise `ObjectID.__eq__`
(which ignores names) with equal lengths. -/
def listPyEq : List ObjectID → List ObjectID → Bool
  | [], [] => true
  | a :: arest, b :: brest => ObjectID.pyEq a b && listPyEq arest brest
  | _, _ => false

/-- Python `==` on `OpenSSLCertAux` (dataclass equality over the two
list fields, each compared with the name-ignoring `ObjectID.__eq__`). -/
def OpenSSLCertAux.pyEq (a b : OpenSSLCertAux) : Bool :=
  listPyEq a.trust b.trust && listPyEq a.reject b.reject

theorem as_der_ne_nil {o : ObjectID} {der : List Nat}
    (he : o.as_der = .ok der) : der ≠ [] := by
  obtain ⟨a0, a1, rest, pre, _, _, _, hder⟩ := as_der_ok_struct he
  rw [hder]
  simp

theorem parseOidListGo_nil (fuel : Nat) : parseOidListGo fuel [] = .ok [] := by
  cases fuel <;> rfl

theorem parseOidListGo_encode : ∀ (oids : List ObjectID) (buf : List Nat) (fuel : Nat),
    (∀ o ∈ oids, validArcs o.oid = true) →
    encode_oids_buf oids = .ok buf →
    buf.length ≤ fuel →
    parseOidListGo fuel buf = .ok (oids.map stripOid) := by
  intro oids
  induction oids with
  | nil =>
    intro buf fuel _ henc hf
    obtain rfl : ([] : List Nat) = buf := by simpa [encode_oids_buf] using henc
    simp only [List.map_nil]
    exact parseOidListGo_nil fuel
  | cons o rest ih =>
    intro buf fuel hv henc hf
    rw [encode_oids_buf] at henc
    split at henc
    · simp at henc
    · rename_i d heqd
      split at henc
      · simp at henc
      · rename_i r heqr
        obtain rfl : d ++ r = buf := by simpa using henc
        have hvo := hv o (by simp)
        have hfd := oid_as_der_from_der hvo heqd r
        have hdne := as_der_ne_nil heqd
        obtain ⟨e0, etail, hcc⟩ : ∃ e0 etail, d = e0 :: etail := by
          cases hd2 : d with
          | nil => exact absurd hd2 hdne
          | cons a l => exact ⟨a, l, rfl⟩
        rw [hcc] at hf ⊢
        rw [List.cons_append] at hf ⊢
        obtain ⟨f, rfl⟩ : ∃ f, fuel = f + 1 := by
          simp only [List.length_cons] at hf
          exact ⟨fuel - 1, by omega⟩
        have hdec : ObjectID.from_der (e0 :: (etail ++ r)) = .ok (⟨none, o.oid⟩, r) := by
          rw [← List.cons_append, ← hcc]
          exact hfd
        have hrec : parseOidListGo f r = .ok (rest.map stripOid) := by
          apply ih r f (fun x hx => hv x (by simp [hx])) heqr
          simp only [List.length_cons, List.length_append] at hf
          omega
        simp only [parseOidListGo, hdec, hrec, List.map_cons, stripOid]

theorem encode_oids_ok {oids : List ObjectID} {tag : Nat} {der : List Nat}
    (h : OpenSSLCertAux.encode_oids oids tag = .ok der) :
    ∃ buf pre, encode_oids_buf oids = .ok buf ∧ _encode_len buf.length = .ok pre ∧
      der = tag :: pre ++ buf := by
  rw [OpenSSLCertAux.encode_oids] at h
  split at h
  · simp at h
  · rename_i buf heqb
    split at h
    · simp at h
    · rename_i pre heqp
      obtain rfl : tag :: pre ++ buf = der := by simpa using h
      exact ⟨buf, pre, heqb, heqp, rfl⟩

theorem encode_oids_decode {oids : List ObjectID} {tag : Nat} {der : List Nat}
    (hv : ∀ o ∈ oids, validArcs o.oid = true)
    (h : OpenSSLCertAux.encode_oids oids tag = .ok der) (s : List Nat) :
    ∃ buf pre, der ++ s = tag :: (pre ++ (buf ++ s)) ∧
      _decode_len (pre ++ (buf ++ s)) = .ok (buf.length, pre, buf ++ s) ∧
      parseOidList buf = .ok (oids.map stripOid) := by
  obtain ⟨buf, pre, heqb, heqp, rfl⟩ := encode_oids_ok h
  refine ⟨buf, pre, by simp, ?_, ?_⟩
  · exact isLenEncoding_decode (encode_len_isLen heqp) (buf ++ s)
  · exact parseOidListGo_encode oids buf buf.length hv heqb (le_refl _)

theorem aux_as_der_from_der {a : OpenSSLCertAux} {der : List Nat}
    (hvt : ∀ o ∈ a.trust, validArcs o.oid = true)
    (hvr : ∀ o ∈ a.reject, validArcs o.oid = true)
    (he : a.as_der = .ok der) (s : List Nat) :
    OpenSSLCertAux.from_der (der ++ s)
      = .ok (⟨a.trust.map stripOid, a.reject.map stripOid⟩, s) := by
  obtain ⟨trust, reject⟩ := a
  simp only [] at hvt hvr he ⊢
  rw [OpenSSLCertAux.as_der] at he
  split at he
  · simp at he
  · rename_i t heqt
    split at he
    · simp at he
    · rename_i buf heqbuf
      split at he
      · simp at he
      · rename_i pre heqpre
        obtain rfl : 0x30 :: pre ++ buf = der := by simpa using he
        have hdl := isLenEncoding_decode (encode_len_isLen heqpre) (buf ++ s)
        have htake : (buf ++ s).take buf.length = buf := List.take_left' rfl
        have hdrop : (buf ++ s).drop buf.length = s := List.drop_left' rfl
        obtain ⟨tbuf, pre1, htb, htp, rfl⟩ := encode_oids_ok heqt
        have htparse : parseOidList tbuf = .ok (trust.map stripOid) :=
          parseOidListGo_encode trust tbuf tbuf.length hvt htb (le_refl _)
        by_cases hrej : reject.isEmpty
        · rw [if_pos hrej] at heqbuf
          obtain rfl : (0x30 :: pre1) ++ tbuf = buf := by simpa using heqbuf
          obtain rfl : reject = [] := List.isEmpty_iff.mp hrej
          have hcontent : OpenSSLCertAux.fromDerContent ((0x30 :: pre1) ++ tbuf)
              = .ok ⟨trust.map stripOid, []⟩ := by
            have hre : (0x30 :: pre1) ++ tbuf = 0x30 :: (pre1 ++ tbuf) := by simp
            have hdl2 : _decode_len (pre1 ++ tbuf) = .ok (tbuf.length, pre1, tbuf) :=
              isLenEncoding_decode (encode_len_isLen htp) tbuf
            rw [hre]
            simp only [OpenSSLCertAux.fromDerContent, hdl2, List.take_length,
              List.drop_length, htparse, if_pos]
          have hre2 : ((0x30 :: pre) ++ ((0x30 :: pre1) ++ tbuf)) ++ s
              = 0x30 :: (pre ++ (((0x30 :: pre1) ++ tbuf) ++ s)) := by simp
          rw [hre2]
          simp only [OpenSSLCertAux.from_der, hdl, htake, hdrop, hcontent, if_pos,
            List.map_nil]
        · rw [if_neg hrej] at heqbuf
          split at heqbuf
          · simp at heqbuf
          · rename_i r heqr
            obtain ⟨rbuf, pre2, hrb, hrp, rfl⟩ := encode_oids_ok heqr
            obtain rfl : ((0x30 :: pre1) ++ tbuf) ++ ((0xA0 :: pre2) ++ rbuf) = buf := by
              simpa using heqbuf
            have hrparse : parseOidList rbuf = .ok (reject.map stripOid) :=
              parseOidListGo_encode reject rbuf rbuf.length hvr hrb (le_refl _)
            have hcontent : OpenSSLCertAux.fromDerContent
                (((0x30 :: pre1) ++ tbuf) ++ ((0xA0 :: pre2) ++ rbuf))
                = .ok ⟨trust.map stripOid, reject.map stripOid⟩ := by
              have hre : (((0x30 :: pre1) ++ tbuf) ++ ((0xA0 :: pre2) ++ rbuf))
                  = 0x30 :: (pre1 ++ (tbuf ++ ((0xA0 :: pre2) ++ rbuf))) := by simp
              have hdl1 : _decode_len (pre1 ++ (tbuf ++ ((0xA0 :: pre2) ++ rbuf)))
                  = .ok (tbuf.length, pre1, tbuf ++ ((0xA0 :: pre2) ++ rbuf)) :=
                isLenEncoding_decode (encode_len_isLen htp) _
              have htake1 : (tbuf ++ ((0xA0 :: pre2) ++ rbuf)).take tbuf.length = tbuf :=
                List.take_left' rfl
              have hdrop1 : (tbuf ++ ((0xA0 :: pre2) ++ rbuf)).drop tbuf.length
                  = 0xA0 :: (pre2 ++ rbuf) := by
                rw [List.drop_left' rfl]
                simp
              have hdl3 : _decode_len (pre2 ++ rbuf) = .ok (rbuf.length, pre2, rbuf) :=
                isLenEncoding_decode (encode_len_isLen hrp) rbuf
              rw [hre]
              simp only [OpenSSLCertAux.fromDerContent, hdl1, htake1, hdrop1, htparse,
                hdl3, List.take_length, hrparse, if_pos]
            have hre2 : ((0x30 :: pre) ++ (((0x30 :: pre1) ++ tbuf) ++ ((0xA0 :: pre2) ++ rbuf))) ++ s
                = 0x30 :: (pre ++ ((((0x30 :: pre1) ++ tbuf) ++ ((0xA0 :: pre2) ++ rbuf)) ++ s)) := by
              simp
            rw [hre2]
            simp only [OpenSSLCertAux.from_der, hdl, htake, hdrop, hcontent, if_pos]

theorem listPyEq_strip (l : List ObjectID) : listPyEq (l.map stripOid) l = true := by
  induction l with
  | nil => rfl
  | cons o rest ih => simp [listPyEq, stripOid, ObjectID.pyEq, ih]

/-- C1 (amended): for every well-formed certificate DER encoding (an
outer SEQUENCE whose length field accurately delimits a content accepted
by the Certificate content decoder) and every `OpenSSLCertAux` with one
trust OID whose arcs the single-byte first-component encoding can
represent and decode back (first arc at most 2, `40*a0 + a1 < 256`,
second arc below 40 when the first is below 2 — likewise for any reject
OIDs) and whose encoding succeeds,
`parse_trusted_certificate (to_trusted_certificate cert_der aux)`
returns the certificate bytes unchanged, an aux equal to the original
under the code's name-ignoring equality (`__eq__` compares only arcs;
the decoder returns name-less identifiers), and an empty trailing
remainder.  Unrestricted aux values break the round trip:
`trusted_cert_roundtrip_cex`. -/
theorem trusted_cert_roundtrip (lb content : List Nat) (c : Certificate)
    (aux : OpenSSLCertAux) (oid : ObjectID) (auxDer : List Nat)
    (hlen : isLenEncoding lb content.length = true)
    (hcert : Certificate.fromDerContent content = .ok c)
    (htrust : aux.trust = [oid])
    (hv : validArcs oid.oid = true)
    (hvr : ∀ o ∈ aux.reject, validArcs o.oid = true)
    (henc : aux.as_der = .ok auxDer) :
    to_trusted_certificate (0x30 :: (lb ++ content)) aux
        = .ok ⟨"TRUSTED CERTIFICATE", (0x30 :: (lb ++ content)) ++ auxDer⟩ ∧
    parse_trusted_certificate ⟨"TRUSTED CERTIFICATE", (0x30 :: (lb ++ content)) ++ auxDer⟩
        = .ok (0x30 :: (lb ++ content),
               ⟨aux.trust.map stripOid, aux.reject.map stripOid⟩, []) ∧
    OpenSSLCertAux.pyEq ⟨aux.trust.map stripOid, aux.reject.map stripOid⟩ aux = true := by
  have hvt : ∀ o ∈ aux.trust, validArcs o.oid = true := by
    intro o ho
    rw [htrust] at ho
    simp only [List.mem_singleton] at ho
    subst ho
    exact hv
  refine ⟨by simp [to_trusted_certificate, henc], ?_, ?_⟩
  · have hcdec : Certificate.from_der ((0x30 :: (lb ++ content)) ++ auxDer)
        = .ok (c, auxDer) := by
      have hre : (0x30 :: (lb ++ content)) ++ auxDer
          = 0x30 :: (lb ++ (content ++ auxDer)) := by simp
      rw [hre]
      exact cert_append_remainder lb content c auxDer hlen hcert
    have hadec : OpenSSLCertAux.from_der (auxDer ++ [])
        = .ok (⟨aux.trust.map stripOid, aux.reject.map stripOid⟩, []) :=
      aux_as_der_from_der hvt hvr henc []
    rw [List.append_nil] at hadec
    have hlength : ((0x30 :: (lb ++ content)) ++ auxDer).length - auxDer.length
        = (0x30 :: (lb ++ content)).length := by
      simp only [List.length_append]
      omega
    simp only [parse_trusted_certificate, hcdec, hadec, if_pos]
    rw [hlength, List.take_left]
  · simp only [OpenSSLCertAux.pyEq, listPyEq_strip, Bool.and_self]

/-- An aux with one trust OID (1.3.6.1.5.5.7.3.1, serverAuth). -/
def auxExample : OpenSSLCertAux :=
  ⟨[⟨some "serverAuth", [1, 3, 6, 1, 5, 5, 7, 3, 1]⟩], []⟩

/-- The DER encoding of `auxExample`. -/
def auxDerExample : List Nat :=
  [0x30, 0x0C, 0x30, 0x0A, 0x06, 0x08, 0x2B, 0x06, 0x01, 0x05, 0x05, 0x07, 0x03, 0x01]

/-- Witness for `trusted_cert_roundtrip` at the concrete minimal
certificate and serverAuth aux. -/
theorem trusted_cert_roundtrip_witness :
    to_trusted_certificate certBytes auxExample
        = .ok ⟨"TRUSTED CERTIFICATE", certBytes ++ auxDerExample⟩ ∧
    parse_trusted_certificate ⟨"TRUSTED CERTIFICATE", certBytes ++ auxDerExample⟩
        = .ok (certBytes, ⟨[⟨none, [1, 3, 6, 1, 5, 5, 7, 3, 1]⟩], []⟩, []) ∧
    OpenSSLCertAux.pyEq ⟨[⟨none, [1, 3, 6, 1, 5, 5, 7, 3, 1]⟩], []⟩ auxExample = true := by
  have h := trusted_cert_roundtrip [0x12] certContent certExample auxExample
      ⟨some "serverAuth", [1, 3, 6, 1, 5, 5, 7, 3, 1]⟩ auxDerExample rfl rfl rfl
      (by decide) (by simp [auxExample]) rfl
  simpa [certBytes, auxExample, stripOid] using h

/-- Counterexample to C1 as stated: the aux `⟨[ObjectID(None, [0, 100])], []⟩`
has one trust OID, yet `parse_trusted_certificate ∘ to_trusted_certificate`
does not return an aux equal to the original — the single-byte first-arc
encoding of `[0, 100]` is the byte 100, which the decoder's clamp
`min(100 // 40, 2)` reads back as the arcs `[2, 20]`, and
`OpenSSLCertAux.__eq__` rejects the pair. -/
theorem trusted_cert_roundtrip_cex :
    to_trusted_certificate certBytes ⟨[⟨none, [0, 100]⟩], []⟩
      = .ok ⟨"TRUSTED CERTIFICATE",
             certBytes ++ [0x30, 0x05, 0x30, 0x03, 0x06, 0x01, 0x64]⟩ ∧
    parse_trusted_certificate
        ⟨"TRUSTED CERTIFICATE", certBytes ++ [0x30, 0x05, 0x30, 0x03, 0x06, 0x01, 0x64]⟩
      = .ok (certBytes, ⟨[⟨none, [2, 20]⟩], []⟩, []) ∧
    OpenSSLCertAux.pyEq ⟨[⟨none, [2, 20]⟩], []⟩ ⟨[⟨none, [0, 100]⟩], []⟩ = false :=
  ⟨rfl, rfl, rfl⟩

/- ------------------------------------------------------------------ -/
/- DistinguishedName (der_x509.py lines 397-427).                     -/
/- ------------------------------------------------------------------ -/

/-- Embedding of the `DistinguishedName` dataclass (lines 397-399):
relative-name sets of (OID, string) pairs; the Python `str` produced by
`part_b.decode("utf-8")` is represented by its byte sequence. -/
structure DistinguishedName where
  bits : List (List (ObjectID × List Nat))
deriving DecidableEq, Repr

/-- The inner attribute parse of `DistinguishedName.from_der` (lines
419-425): OID, `print(seq_b[0])` (IndexError on empty), the
directory-string tag assert, the string element's length decode, then
`part_b, seq_b = seq_b[:seq_len], seq_b[seq_len:]` — NOTE: the source
slices with `seq_len` (the whole pair SEQUENCE's length), not the
just-decoded `part_len`, so `part_len` is dead and the final
`assert seq_b == b""` compares an always-empty slice. -/
def dnPairParse (seq_len : Nat) (seq_b : List Nat) :
    Except PyErr (ObjectID × List Nat) :=
  match ObjectID.from_der seq_b with
  | .error e => .error e
  | .ok (seq_oid, sb) =>
    match sb with
    | [] => .error .indexError
    | t :: sbtail =>
      if t = 0x13 ∨ t = 0x14 ∨ t = 0x0C ∨ t = 0x16 ∨ t = 0x1E then
        match _decode_len sbtail with
        | .error e => .error e
        | .ok (part_len, _lb, sb2) =>
          if sb2.drop seq_len = [] then .ok (seq_oid, sb2.take seq_len)
          else .error .assertionError
      else .error .assertionError

/-- The `while set_b:` pair loop (lines 414-425), with fuel. -/
def parsePairsGo (fuel : Nat) (set_b : List Nat) :
    Except PyErr (List (ObjectID × List Nat)) :=
  match set_b, fuel with
  | [], _ => .ok []
  | _ :: _, 0 => .error .outOfFuel
  | t :: tail, fuel + 1 =>
    if t = 0x30 then
      match _decode_len tail with
      | .error e => .error e
      | .ok (seq_len, _lb, seq_bf) =>
        match dnPairParse seq_len (seq_bf.take seq_len) with
        | .error e => .error e
        | .ok pair =>
          match parsePairsGo fuel (seq_bf.drop seq_len) with
          | .error e => .error e
          | .ok rest => .ok (pair :: rest)
    else .error .assertionError

/-- The `while b:` set loop (lines 408-426), with fuel. -/
def parseSetsGo (fuel : Nat) (b : List Nat) :
    Except PyErr (List (List (ObjectID × List Nat))) :=
  match b, fuel with
  | [], _ => .ok []
  | _ :: _, 0 => .error .outOfFuel
  | t :: tail, fuel + 1 =>
    if t = 0x31 then
      match _decode_len tail with
      | .error e => .error e
      | .ok (set_len, _lb, set_bf) =>
        match parsePairsGo (set_bf.take set_len).length (set_bf.take set_len) with
        | .error e => .error e
        | .ok set_bits =>
          match parseSetsGo fuel (set_bf.drop set_len) with
          | .error e => .error e
          | .ok rest => .ok (set_bits :: rest)
    else .error .assertionError

/-- Embedding of `DistinguishedName.from_der` (lines 401-427). -/
def DistinguishedName.from_der (b : List Nat) :
    Except PyErr (DistinguishedName × List Nat) :=
  match b with
  | [] => .error .indexError
  | t :: tail =>
    if t = 0x30 then
      match _decode_len tail with
      | .error e => .error e
      | .ok (dn_len, _lb, buf) =>
        match parseSetsGo (buf.take dn_len).length (buf.take dn_len) with
        | .error e => .error e
        | .ok bits => .ok (⟨bits⟩, buf.drop dn_len)
    else .error .assertionError

/-- C8: evaluation at the failing input.  First conjunct: a DN whose
single attribute SEQUENCE contains an OID, a UTF8String `"a"` AND a
second element `06 01 2A` is ACCEPTED — the `assert seq_b == b""`
("DN seq contained >2 parts") is vacuous because the code slices with
`seq_len` instead of `part_len`, and the extra element's raw bytes are
absorbed into the decoded attribute string (`61 06 01 2A`).  Second
conjunct: when the SEQUENCE is exactly one OID followed by one
directory-string element, the decoded string is exactly the string
element's content octets (`61 62` = "ab"), as the claim's second half
states. -/
theorem dn_pair_check_vacuous :
    DistinguishedName.from_der
        [0x30, 0x0D, 0x31, 0x0B, 0x30, 0x09, 0x06, 0x01, 0x55,
         0x0C, 0x01, 0x61, 0x06, 0x01, 0x2A]
      = .ok (⟨[[(⟨none, [2, 5]⟩, [0x61, 0x06, 0x01, 0x2A])]]⟩, []) ∧
    DistinguishedName.from_der
        [0x30, 0x0B, 0x31, 0x09, 0x30, 0x07, 0x06, 0x01, 0x55, 0x0C, 0x02, 0x61, 0x62]
      = .ok (⟨[[(⟨none, [2, 5]⟩, [0x61, 0x62])]]⟩, []) := ⟨rfl, rfl⟩

/- ------------------------------------------------------------------ -/
/- PEM armor decoding (der_x509.py lines 301-331).                    -/
/- Convention: a text stream is a list of lines WITHOUT their trailing -/
/- newline; Python's `for ln in fp` yields each line with "\n" kept,   -/
/- which the anchors `$` of the BEGIN/END regexes ignore, and the       -/
/- newlines inside the base64 body are discarded by b64decode, so only  -/
/- the returned pre-BEGIN text differs: we re-append "\n" when joining. -/
/- ------------------------------------------------------------------ -/

/-- `re.match(r"^-----BEGIN ([^-]+)-----$", ln)` (line 314): the label
is the maximal nonempty hyphen-free run after "-----BEGIN ", and the
rest of the line must be exactly "-----". -/
def matchBegin (ln : String) : Option String :=
  let cs := ln.toList
  if cs.take 11 = String.toList ("-----BEGIN ") then
    let mid := (cs.drop 11).takeWhile (fun c => c != '-')
    let tl := (cs.drop 11).dropWhile (fun c => c != '-')
    if mid ≠ [] ∧ tl = String.toList ("-----") then some (String.mk mid)
    else none
  else none

/-- `re.match(f"^-----END {re.escape(name)}-----$", ln)` (line 323). -/
def matchEnd (name ln : String) : Bool :=
  ln == ("-----END " ++ name ++ "-----")

/-- The first `for ln in fp` loop (lines 311-320): the lines before the
first BEGIN match, the matched label, and the lines the stream still
holds after it; `none` when no line matches (`if not start_match`). -/
def splitOnBegin : List String → Option (List String × String × List String)
  | [] => none
  | ln :: rest =>
    match matchBegin ln with
    | some name => some ([], name, rest)
    | none =>
      match splitOnBegin rest with
      | some (p, n, r) => some (ln :: p, n, r)
      | none => none

/-- The second `for ln in fp` loop (lines 322-330): the body lines
before the first matching END; `none` when the loop ran but no line
matched (`if not end_match`). -/
def splitOnEnd (name : String) : List String → Option (List String)
  | [] => none
  | ln :: rest =>
    if matchEnd name ln then some []
    else
      match splitOnEnd name rest with
      | some bits => some (ln :: bits)
      | none => none

/-- Value of a standard-alphabet base64 character. -/
def b64val (c : Char) : Option Nat :=
  if 'A' ≤ c ∧ c ≤ 'Z' then some (c.toNat - 65)
  else if 'a' ≤ c ∧ c ≤ 'z' then some (c.toNat - 97 + 26)
  else if '0' ≤ c ∧ c ≤ '9' then some (c.toNat - 48 + 52)
  else if c = '+' then some 62
  else if c = '/' then some 63
  else none

/-- Decode whole 4-character base64 groups, with `=` padding allowed
only at the very end. -/
def b64decodeGroups : List Char → Except PyErr (List Nat)
  | [] => .ok []
  | a :: b :: c :: d :: rest =>
    match b64val a, b64val b with
    | some va, some vb =>
      if d = '=' then
        if rest = [] then
          if c = '=' then .ok [va * 4 + vb / 16]
          else
            match b64val c with
            | some vc => .ok [va * 4 + vb / 16, (vb % 16) * 16 + vc / 4]
            | none => .error .binasciiError
        else .error .binasciiError
      else
        match b64val c, b64val d with
        | some vc, some vd =>
          match b64decodeGroups rest with
          | .error e => .error e
          | .ok out =>
              .ok ((va * 4 + vb / 16) :: ((vb % 16) * 16 + vc / 4) ::
                   ((vc % 4) * 64 + vd) :: out)
        | _, _ => .error .binasciiError
    | _, _ => .error .binasciiError
  | _ => .error .binasciiError

/-- `base64.b64decode` with `validate=False` (line 331): characters
outside the alphabet (such as the newlines of the armor body) are
discarded, then the length must be a multiple of 4
(`binascii.Error` otherwise). -/
def b64decode (s : String) : Except PyErr (List Nat) :=
  let cs := s.toList.filter (fun c => (b64val c).isSome || c == '=')
  if cs.length % 4 = 0 then b64decodeGroups cs else .error .binasciiError

/-- Embedding of `PEMBlock.decode_from_file` (lines 308-331).  When no
line matches BEGIN the function returns `None`; when a BEGIN matches
but is the stream's last line, the second `for` loop never runs and
`if not end_match` reads the never-assigned local `end_match`
(UnboundLocalError); when later lines exist but none matches END the
function also returns `None` (`end_match` holds the last line's failed
match). -/
def PEMBlock.decode_from_file (lines : List String) :
    Except PyErr (Option (String × PEMBlock)) :=
  match splitOnBegin lines with
  | none => .ok none
  | some (pre, name, rest) =>
    match rest with
    | [] => .error .unboundLocalError
    | _ :: _ =>
      match splitOnEnd name rest with
      | none => .ok none
      | some bits =>
        match b64decode (String.join bits) with
        | .error e => .error e
        | .ok content =>
            .ok (some (String.join (pre.map (fun l => l ++ "\n")), ⟨name, content⟩))

/-- If no line matches BEGIN, the first loop finds nothing. -/
theorem splitOnBegin_none (lines : List String)
    (h : ∀ l ∈ lines, matchBegin l = none) : splitOnBegin lines = none := by
  induction lines with
  | nil => rfl
  | cons ln rest ih =>
    have h1 : matchBegin ln = none := h ln (by simp)
    have h2 : splitOnBegin rest = none :=
      ih (fun l hl => h l (by simp [hl]))
    simp only [splitOnBegin, h1, h2]

/-- The first loop stops at the first line matching BEGIN and leaves the
later lines in the stream. -/
theorem splitOnBegin_found (pre : List String) (bl name : String)
    (rest : List String) (hpre : ∀ l ∈ pre, matchBegin l = none)
    (hbl : matchBegin bl = some name) :
    splitOnBegin (pre ++ bl :: rest) = some (pre, name, rest) := by
  induction pre with
  | nil => simp only [List.nil_append, splitOnBegin, hbl]
  | cons ln p ih =>
    have h1 : matchBegin ln = none := hpre ln (by simp)
    have h2 : splitOnBegin (p ++ bl :: rest) = some (p, name, rest) :=
      ih (fun l hl => hpre l (by simp [hl]))
    simp only [List.cons_append, splitOnBegin, List.append_eq, h1, h2]

/-- If no later line matches the END armor, the second loop finds
nothing. -/
theorem splitOnEnd_none (name : String) (rest : List String)
    (h : ∀ l ∈ rest, matchEnd name l = false) :
    splitOnEnd name rest = none := by
  induction rest with
  | nil => rfl
  | cons ln r ih =>
    have h1 : matchEnd name ln = false := h ln (by simp)
    have h2 : splitOnEnd name r = none :=
      ih (fun l hl => h l (by simp [hl]))
    simp [splitOnEnd, h1, h2]

/-- C10: the two failure modes are NOT distinguished.  For any stream
made of non-BEGIN lines followed by a BEGIN line and at least one
further line none of which matches the corresponding END,
`decode_from_file` returns `None` (`.ok none`) — and the stream with no
BEGIN at all returns the very same `None`.  There is no distinct
PemMissingEnd-style error in the code; the only divergent missing-END
behaviour is the accidental UnboundLocalError when BEGIN is the last
line of the stream (see `pem_missing_end_cex`). -/
theorem pem_decode_none_cases (pre : List String) (bl name : String)
    (rest : List String)
    (hpre : ∀ l ∈ pre, matchBegin l = none)
    (hbl : matchBegin bl = some name)
    (hrest : rest ≠ [])
    (hend : ∀ l ∈ rest, matchEnd name l = false) :
    PEMBlock.decode_from_file (pre ++ bl :: rest) = .ok none ∧
    PEMBlock.decode_from_file pre = .ok none := by
  constructor
  · obtain ⟨r0, rs, hr⟩ : ∃ r0 rs, rest = r0 :: rs := by
      cases rest with
      | nil => exact absurd rfl hrest
      | cons a b => exact ⟨a, b, rfl⟩
    subst hr
    have hsb := splitOnBegin_found pre bl name (r0 :: rs) hpre hbl
    have hse := splitOnEnd_none name (r0 :: rs) hend
    simp only [PEMBlock.decode_from_file, hsb, hse]
  · have hsb := splitOnBegin_none pre hpre
    simp only [PEMBlock.decode_from_file, hsb]

/-- C10 witness: a stream with a non-matching first line, a BEGIN
TRUST armor and one base64 line but no END decodes to `.ok none`, and
so does the BEGIN-free stream. -/
theorem pem_decode_none_cases_witness :
    PEMBlock.decode_from_file
        ["certdata", "-----BEGIN TRUST-----", "QUJD"] = .ok none ∧
    PEMBlock.decode_from_file ["certdata"] = .ok none := by
  have h := pem_decode_none_cases ["certdata"] ("-----BEGIN TRUST-----")
    ("TRUST") (["QUJD"])
    (by intro l hl
        simp only [List.mem_singleton] at hl
        subst hl
        rfl)
    (by rfl)
    (by simp)
    (by intro l hl
        simp only [List.mem_singleton] at hl
        subst hl
        rfl)
  simpa using h

/-- C10 counterexample to the claimed distinct error: a stream whose
BEGIN has a body but no END yields `.ok none`, byte-identical to the
"not found" result of a BEGIN-free stream; the only other missing-END
outcome is the UnboundLocalError crash when BEGIN is the last line —
still not a distinct PemMissingEnd error. -/
theorem pem_missing_end_cex :
    PEMBlock.decode_from_file ["-----BEGIN CERTIFICATE-----", "AAAA"]
      = .ok none ∧
    PEMBlock.decode_from_file ["no pem here"] = .ok none ∧
    PEMBlock.decode_from_file ["-----BEGIN CERTIFICATE-----"]
      = .error .unboundLocalError := ⟨rfl, rfl, rfl⟩
